import Mathlib

/-!
# Verification of the random-di dependency-injection container

This file gives a shallow embedding, in Lean 4, of the core of the
`random-di` TypeScript repository: the sync/async unification primitive
(`SyncPromise`), the dependency graph (`DirectedAcyclicGraph`), the
lifecycle engines (v1 class-based `SingletonService`/`TransientService`,
the map-based `ServiceStorage`, and the `part_012` builder/container
iteration), and the partitioned container builder
(`Implementation/Container.ts`).  Theorems about these definitions settle
the specification claims.

Conventions of the embedding:
* JavaScript runtime values are modelled by `JSVal`; promises are never
  treated as first-class `JSVal`s — instead, "value or promise of a value"
  is modelled by `SyncOrAsync JSVal`, whose `now` constructor is a bare
  value (or a `SyncPromise`, depending on context) and whose `later`
  constructor is a real `Promise` that eventually settles to the carried
  value.  Rejection paths of promises are modelled only where a claim
  needs them (container teardown).
* Mutable object state is threaded explicitly; `Map`s become association
  lists preserving JavaScript `Map` insertion-order semantics.
* General recursion over the dependency graph is indexed by explicit fuel;
  running out of fuel yields `none`/an `outOfFuel` marker, which is
  unreachable for the acyclic graphs the builders construct.
-/

/-- A JavaScript runtime value (promises excluded, see module docstring).
`vundef` is `undefined`, `vnull` is `null`; `vobj n` is an object with
identity `n` (objects are always truthy). `NaN` is not modelled. -/
inductive JSVal : Type where
  | vundef : JSVal
  | vnull : JSVal
  | vbool : Bool → JSVal
  | vnum : Int → JSVal
  | vstr : String → JSVal
  | vobj : Nat → JSVal
deriving DecidableEq, Repr

/-- JavaScript truthiness of a value. -/
def JSVal.truthy : JSVal → Bool
  | .vundef => false
  | .vnull => false
  | .vbool b => b
  | .vnum n => n != 0
  | .vstr s => s != ""
  | .vobj _ => true

/-- Whether a value is nullish (`null` or `undefined`), as tested by `??`. -/
def JSVal.nullish : JSVal → Bool
  | .vundef => true
  | .vnull => true
  | _ => false

/-- The JavaScript nullish-coalescing operator `a ?? b`. -/
def jsCoalesce (a b : JSVal) : JSVal :=
  if a.nullish then b else a

/-- A settled sync-or-async computation of an `α`: `now a` is an
immediately available value (a bare value or a `SyncPromise` wrapping it,
depending on the position in the code being modelled), `later a` is a real
`Promise` that eventually resolves to `a`. -/
inductive SyncOrAsync (α : Type) : Type where
  | now : α → SyncOrAsync α
  | later : α → SyncOrAsync α
deriving DecidableEq, Repr

namespace SyncOrAsync

/-- The value a wrapper settles to. -/
def val : SyncOrAsync α → α
  | .now a => a
  | .later a => a

/-- `true` for an immediate (`SyncPromise`) wrapper, `false` for a pending
(`Promise`) one. -/
def isNow : SyncOrAsync α → Bool
  | .now _ => true
  | .later _ => false

/-- `.then` chaining as implemented by `SyncPromise.then` and
`Promise.then`: a `SyncPromise` applies the continuation in the calling
stack frame and returns its (possibly pending) result unchanged; a
`Promise` defers the continuation and flattens its result. -/
def chain : SyncOrAsync α → (α → SyncOrAsync β) → SyncOrAsync β
  | .now a, f => f a
  | .later a, f => .later (f a).val

/-- `.then` chaining for a continuation that additionally produces a new
state (used to model continuations that mutate object fields or invoke
counted factories). -/
def chainSt {σ : Type} : SyncOrAsync α → (α → SyncOrAsync β × σ) → SyncOrAsync β × σ
  | .now a, f => f a
  | .later a, f => ((.later (f a).1.val), (f a).2)

/-- The binary `SyncPromise.all`: an immediate pair when both inputs are
`SyncPromise`s, otherwise a real `Promise.all`. -/
def allTwo : SyncOrAsync α → SyncOrAsync β → SyncOrAsync (α × β)
  | .now a, .now b => .now (a, b)
  | x, y => .later (x.val, y.val)

end SyncOrAsync

/-- An argument as passed to `SyncPromise.allWithoutTypeChecking`: a bare
value, a `SyncPromise`, or a real `Promise`. -/
inductive JsArg : Type where
  | plain : JSVal → JsArg
  | syncp : JSVal → JsArg
  | prom : JSVal → JsArg
deriving DecidableEq, Repr

/-- `instanceof Promise` on an argument. -/
def JsArg.isProm : JsArg → Bool
  | .prom _ => true
  | _ => false

/-- The value an argument settles to (bare values are their own value;
`SyncPromise`s are unwrapped; `Promise`s resolve). -/
def JsArg.settled : JsArg → JSVal
  | .plain v => v
  | .syncp v => v
  | .prom v => v

/-- `SyncPromise.allWithoutTypeChecking`: if any input is a real
`Promise`, `Promise.all` over the (`SyncPromise`-unwrapped) inputs;
otherwise a `SyncPromise` holding the list of unwrapped values. -/
def spAllWithoutTypeChecking (params : List JsArg) : SyncOrAsync (List JSVal) :=
  if params.any JsArg.isProm then
    .later (params.map JsArg.settled)
  else
    .now (params.map JsArg.settled)

/-- Association-list lookup, mirroring `Map.get` (first binding wins; the
builders never create duplicate keys). -/
def lookupA [DecidableEq K] (m : List (K × α)) (k : K) : Option α :=
  (m.find? (fun e => e.1 = k)).map Prod.snd

/-- Association-list update, mirroring `Map.set`: replaces the value in
place if the key is present, otherwise appends a new binding. -/
def setAssoc [DecidableEq K] (m : List (K × α)) (k : K) (v : α) : List (K × α) :=
  if (m.find? (fun e => e.1 = k)).isSome then
    m.map (fun e => if e.1 = k then (k, v) else e)
  else
    m ++ [(k, v)]

/-! ## The v1 `DirectedAcyclicGraph` -/

/-- A vertex of the v1 `DirectedAcyclicGraph`: a key, a payload, and the
keys of its neighbours (the dependencies of the stored service). -/
structure GVertex (K V : Type) : Type where
  key : K
  value : V
  neighbours : List K

/-- The v1 `DirectedAcyclicGraph`: an insertion-ordered list of vertices. -/
structure DAGraph (K V : Type) : Type where
  vertices : List (GVertex K V)

/-- Structured errors of the v1 graph. -/
inductive GraphError (K : Type) : Type where
  | noNeighbour (parent missing : K)
  | noVertex (k : K)
deriving DecidableEq, Repr

namespace DAGraph

variable {K V : Type} [DecidableEq K]

/-- `getVertex`: first vertex with the given key, if any. -/
def getVertex (g : DAGraph K V) (k : K) : Option (GVertex K V) :=
  g.vertices.find? (fun v => v.key = k)

/-- `isVertexExisting`: `!!getVertex(key)` (a found vertex object is truthy). -/
def isVertexExisting (g : DAGraph K V) (k : K) : Bool :=
  (g.getVertex k).isSome

/-- `addVertex`: throws `NoNeighbourError(key, n)` at the first neighbour
`n` not present in the graph; on success appends the new vertex. -/
def addVertex (g : DAGraph K V) (key : K) (value : V) (neighbours : List K) :
    Except (GraphError K) (DAGraph K V) :=
  match neighbours.find? (fun n => !(g.isVertexExisting n)) with
  | some missing => .error (.noNeighbour key missing)
  | none => .ok ⟨g.vertices ++ [⟨key, value, neighbours⟩]⟩

/-- The dependency-edge relation induced by the `neighbours` (`dependsOn`)
list of each stored vertex. -/
def edge (g : DAGraph K V) (a b : K) : Prop :=
  ∃ v ∈ g.vertices, v.key = a ∧ b ∈ v.neighbours

/-- Acyclicity of the induced edge relation: no key reaches itself through
one or more dependency edges. -/
def Acyclic (g : DAGraph K V) : Prop :=
  ∀ k : K, ¬ Relation.TransGen g.edge k k

end DAGraph

/-- The key invariant of insertion-ordered graphs: given the keys `seen`
inserted so far, every vertex of the list has all of its neighbours among
the previously inserted keys and a key not previously inserted. -/
def LayeredL {K V : Type} : List K → List (GVertex K V) → Prop
  | _, [] => True
  | seen, v :: vs =>
      (∀ n ∈ v.neighbours, n ∈ seen) ∧ v.key ∉ seen ∧
        LayeredL (seen ++ [v.key]) vs

/-- Position of the first occurrence of a key in a list (length of the
list when absent); used as a rank function for acyclicity. -/
def rkOf [DecidableEq K] : List K → K → Nat
  | [], _ => 0
  | a :: as, k => if a = k then 0 else rkOf as k + 1

/-- Graph states reachable from the empty graph by successful `addVertex`
calls whose key is not already present (the discipline `addService`
enforces via its duplicate-registration check). -/
inductive ReachableFresh {K V : Type} [DecidableEq K] : DAGraph K V → Prop where
  | empty : ReachableFresh ⟨[]⟩
  | step {g g' : DAGraph K V} {k : K} {v : V} {ns : List K} :
      ReachableFresh g → g.isVertexExisting k = false →
      g.addVertex k v ns = .ok g' → ReachableFresh g'

/-! ## The v1 lifecycle services (`SingletonService`, `TransientService`) -/

/-- A registered factory: `fn n deps` is the value produced by the `n`-th
invocation of the JavaScript factory closure on dependency values `deps`
(the index models closure state); `isAsync` records whether the closure
returns a `Promise`. -/
structure FactorySpec : Type where
  isAsync : Bool
  fn : Nat → List JSVal → JSVal

/-- Invoke a factory: an async factory returns a promise of its value. -/
def FactorySpec.run (f : FactorySpec) (n : Nat) (deps : List JSVal) : SyncOrAsync JSVal :=
  if f.isAsync then .later (f.fn n deps) else .now (f.fn n deps)

/-- A `repair` callback of a v1 Singleton registration; it may itself be
synchronous or asynchronous. -/
structure RepairSpec : Type where
  isAsync : Bool
  fn : JSVal → JSVal

/-- Invoke a repair callback. -/
def RepairSpec.run (r : RepairSpec) (v : JSVal) : SyncOrAsync JSVal :=
  if r.isAsync then .later (r.fn v) else .now (r.fn v)

/-- The payload stored in the v1 dependency graph: a `TransientService` or
a `SingletonService` (factory plus optional `invalidate`/`repair`). -/
inductive ServiceSpec : Type where
  | transientS (factory : FactorySpec)
  | singletonS (factory : FactorySpec) (invalidate : Option (JSVal → Bool))
      (repair : Option RepairSpec)

/-- The mutable state of one service object: the `instantiatedService`
cache (`SyncPromise.from(undefined)` initially) and the number of factory
invocations so far. -/
structure SlotState : Type where
  cache : SyncOrAsync JSVal
  count : Nat
deriving DecidableEq, Repr

/-- Initial slot state: cache `SyncPromise.from(undefined)`, no factory
invocation yet. -/
def initSlot : SlotState := ⟨.now JSVal.vundef, 0⟩

/-- The continuation of `reInstantiatedServicePromise` in
`SingletonService.instantiate`:
`([b, s]) => b ? (repair ? repair(s) : factory(...deps)) : undefined`,
paired with the factory-invocation count after it runs. -/
def singletonCont1 (factory : FactorySpec) (repair : Option RepairSpec)
    (deps : List JSVal) (c₀ : Nat) (p : Bool × JSVal) : SyncOrAsync JSVal × Nat :=
  if p.1 then
    match repair with
    | some r => (r.run p.2, c₀)
    | none => (factory.run c₀ deps, c₀ + 1)
  else ((.now JSVal.vundef), c₀)

/-- The continuation of `instancePromise` in `SingletonService.instantiate`:
`([s, r]) => r ?? s ?? factory(...deps)`, paired with the
factory-invocation count after it runs. -/
def singletonCont2 (factory : FactorySpec) (deps : List JSVal) (c₁ : Nat)
    (p : JSVal × JSVal) : SyncOrAsync JSVal × Nat :=
  if p.2.nullish = false then ((.now p.2), c₁)
  else if p.1.nullish = false then ((.now p.1), c₁)
  else (factory.run c₁ deps, c₁ + 1)

/-- `reInstantiatedServicePromise` of `SingletonService.instantiate`:
`SyncPromise.all(isInvalidPromise, instantiatedService).then(cont1)` where
`isInvalidPromise = instantiatedService.then(s => s ? invalidate(s) : false)`
(the invalidate predicate defaults to `() => false`). -/
def singletonStep1 (factory : FactorySpec) (invalidate : Option (JSVal → Bool))
    (repair : Option RepairSpec) (deps : List JSVal) (st : SlotState) :
    SyncOrAsync JSVal × Nat :=
  let inv := invalidate.getD (fun _ => false)
  ((st.cache.chain (fun inner =>
      .now (if inner.truthy then inv inner else false))).allTwo st.cache).chainSt
    (singletonCont1 factory repair deps st.count)

/-- `SingletonService.instantiate`, from `v1/LifeCycle/SingletonService.ts`:
chains the cached `instantiatedService` through the invalidate / repair /
refabricate decision using `SyncPromise`
(`instancePromise = SyncPromise.all(instantiatedService,
reInstantiatedServicePromise).then(cont2)`), stores the resulting promise
back into the cache, and returns it (unwrapped when synchronous — the
`now`/`later` distinction of the result is exactly that unwrapping). -/
def singletonInstantiate (factory : FactorySpec) (invalidate : Option (JSVal → Bool))
    (repair : Option RepairSpec) (deps : List JSVal) (st : SlotState) :
    SyncOrAsync JSVal × SlotState :=
  let step1 := singletonStep1 factory invalidate repair deps st
  let step2 :=
    (st.cache.allTwo step1.1).chainSt (singletonCont2 factory deps step1.2)
  (step2.1, ⟨step2.1, step2.2⟩)

/-- Dispatch `instantiate` on the stored service: a `TransientService`
invokes its factory every time; a `SingletonService` runs
`singletonInstantiate` on its slot. -/
def svcInstantiate (spec : ServiceSpec) (deps : List JSVal) (slot : SlotState) :
    SyncOrAsync JSVal × SlotState :=
  match spec with
  | .transientS f => (f.run slot.count deps, ⟨slot.cache, slot.count + 1⟩)
  | .singletonS f inv rep => singletonInstantiate f inv rep deps slot

/-! ## The v1 `ContainerBuilder.addService` and `Container.get` -/

/-- Structured errors of the v1 container builder. -/
inductive BuildErr : Type where
  | alreadyRegistered (name : String)
  | dependencyNotFound (name dependency : String)
  | graphErr (e : GraphError String)
deriving DecidableEq, Repr

/-- `ContainerBuilder.addService` from `v1/Container.ts`: duplicate check,
then a `DependencyNotFoundError` at the first missing dependency, then
`addVertex` (whose own neighbour check can no longer fire). -/
def addServiceV1 (g : DAGraph String ServiceSpec) (name : String) (spec : ServiceSpec)
    (dependsOn : List String) : Except BuildErr (DAGraph String ServiceSpec) :=
  if g.isVertexExisting name then .error (.alreadyRegistered name)
  else
    match dependsOn.find? (fun d => !(g.isVertexExisting d)) with
    | some d => .error (.dependencyNotFound name d)
    | none =>
      match g.addVertex name spec dependsOn with
      | .ok g' => .ok g'
      | .error e => .error (.graphErr e)

/-- Builder states reachable from the empty graph by successful
`addService` calls. -/
inductive ReachableSvc : DAGraph String ServiceSpec → Prop where
  | empty : ReachableSvc ⟨[]⟩
  | step {g g' : DAGraph String ServiceSpec} {name : String} {spec : ServiceSpec}
      {deps : List String} :
      ReachableSvc g → addServiceV1 g name spec deps = .ok g' → ReachableSvc g'

/-- The resolver state: the `SlotState` of every service object, keyed by
service name (missing keys are at `initSlot`). -/
def RState : Type := List (String × SlotState)

/-- Read a service object's slot. -/
def getSlot (st : RState) (k : String) : SlotState :=
  (lookupA st k).getD initSlot

/-- Write a service object's slot. -/
def setSlot (st : RState) (k : String) (s : SlotState) : RState :=
  setAssoc st k s

/-- The resolver state of a freshly built container. -/
def initRState : RState := []

mutual

/-- `Container.get` from `v1/Container.ts`, with explicit fuel for the
recursion depth: missing-service check, recursive resolution of the
vertex's neighbours in `dependsOn` order, `Promise.all` /
`SyncPromise.allWithoutTypeChecking` aggregation of the dependency values,
invocation of the service's lifecycle `instantiate` on the settled values,
and unwrapping of the resulting `SyncPromise` (the `now` constructor of
the result is a bare value, `later` a pending promise).
`getNeighbours` of the graph iteration used here is not under `src/` and
is modelled from the spec: it returns the stored dependency keys of the
vertex, in `dependsOn` order. -/
def resolveV1 (g : DAGraph String ServiceSpec) :
    Nat → RState → String → Option (SyncOrAsync JSVal × RState)
  | 0, _, _ => none
  | fuel + 1, st, name =>
    match g.getVertex name with
    | none => none
    | some vtx =>
      match resolveMany g fuel st vtx.neighbours with
      | none => none
      | some (deps, st₁) =>
        let anyAsync := deps.any (fun d => d.isNow = false)
        let settledDeps := deps.map SyncOrAsync.val
        let slot := getSlot st₁ name
        let inst := svcInstantiate vtx.value settledDeps slot
        let result := if anyAsync then SyncOrAsync.later inst.1.val else inst.1
        some (result, setSlot st₁ name inst.2)

/-- Resolve a list of service names left to right, threading the resolver
state (the `.map(dep => this.get(dep.key))` loop of `Container.get`). -/
def resolveMany (g : DAGraph String ServiceSpec) :
    Nat → RState → List String → Option (List (SyncOrAsync JSVal) × RState)
  | _, st, [] => some ([], st)
  | fuel, st, n :: ns =>
    match resolveV1 g fuel st n with
    | none => none
    | some (v, st₁) =>
      match resolveMany g fuel st₁ ns with
      | none => none
      | some (vs, st₂) => some (v :: vs, st₂)

end

/-- Whether a stored registration is fully synchronous: its factory is
synchronous and, for a Singleton, its repair callback (if any) is too. -/
def ServiceSpec.fullySync : ServiceSpec → Bool
  | .transientS f => !f.isAsync
  | .singletonS f _ rep => !f.isAsync && (match rep with
      | some r => !r.isAsync
      | none => true)

/-- Whether a stored registration's factory is asynchronous. -/
def ServiceSpec.facAsync : ServiceSpec → Bool
  | .transientS f => f.isAsync
  | .singletonS f _ _ => f.isAsync

/-- Every registration in the dependency subtree of `k` (explored to the
given depth, matching the resolver's recursion) is fully synchronous. -/
def allSyncReg (g : DAGraph String ServiceSpec) : Nat → String → Bool
  | 0, _ => true
  | fuel + 1, k =>
    match g.getVertex k with
    | none => true
    | some vtx => vtx.value.fullySync && vtx.neighbours.all (allSyncReg g fuel)

/-- Some factory in the dependency subtree of `k` (explored to the given
depth) is asynchronous. -/
def anyAsyncFac (g : DAGraph String ServiceSpec) : Nat → String → Bool
  | 0, _ => false
  | fuel + 1, k =>
    match g.getVertex k with
    | none => false
    | some vtx => vtx.value.facAsync || vtx.neighbours.any (anyAsyncFac g fuel)

/-- A factory with its async flag cleared (same produced values). -/
def FactorySpec.syncF (f : FactorySpec) : FactorySpec := ⟨false, f.fn⟩

/-- A repair callback with its async flag cleared. -/
def RepairSpec.syncR (r : RepairSpec) : RepairSpec := ⟨false, r.fn⟩

/-- A registration made fully synchronous (the "equivalent
fully-synchronous computation" of the claim). -/
def ServiceSpec.syncSpec : ServiceSpec → ServiceSpec
  | .transientS f => .transientS f.syncF
  | .singletonS f inv rep => .singletonS f.syncF inv (rep.map RepairSpec.syncR)

/-- The graph with every registration made fully synchronous. -/
def DAGraph.syncify (g : DAGraph String ServiceSpec) : DAGraph String ServiceSpec :=
  ⟨g.vertices.map (fun v => ⟨v.key, v.value.syncSpec, v.neighbours⟩)⟩

/-- A slot whose cached promise is replaced by an immediate wrapper of the
same settled value. -/
def SlotState.syncSlot (s : SlotState) : SlotState := ⟨.now s.cache.val, s.count⟩

/-- A resolver state with every cached promise made immediate. -/
def syncSt (st : RState) : RState :=
  st.map (fun e => (e.1, e.2.syncSlot))

/-! ## The `part_012` builder / container iteration -/

/-- Outcome of invoking a `destroy` callback: it may return normally,
throw synchronously, return a promise that fulfils, or return a promise
that rejects with the given reason. -/
inductive DOutcome : Type where
  | dsyncOk
  | dsyncThrow (reason : String)
  | dasyncOk
  | dasyncReject (reason : String)
deriving DecidableEq, Repr

/-- The lifecycle selector of the `part_012` builder. -/
inductive PLifeCycle : Type where
  | psing
  | ptrans
deriving DecidableEq, Repr

/-- An instantiable of the `part_012` iteration: a stateless `Transient`,
or a `Singleton` carrying its factory, optional `repair` (invoked on every
`instantiate` once an instance exists), optional `destroy` callback, and
its cached `instance` field (`vundef` when not yet instantiated). -/
inductive PFactory : Type where
  | ptransient (fn : List JSVal → JSVal)
  | psingleton (fn : List JSVal → JSVal)
      (repair : Option (JSVal → List JSVal → JSVal))
      (destroyFn : Option (JSVal → DOutcome))
      (inst : JSVal)

/-- `instantiate` of the `part_012` instantiables.  `Singleton`: create
the instance if the field is falsy, then
`instance = repair?.(instance, ...deps) ?? instance`, and return it. -/
def pInstantiate (f : PFactory) (deps : List JSVal) : JSVal × PFactory :=
  match f with
  | .ptransient fn => (fn deps, .ptransient fn)
  | .psingleton fn rep des inst =>
    let i1 := if inst.truthy then inst else fn deps
    let i2 :=
      match rep with
      | some r => jsCoalesce (r i1 deps) i1
      | none => i1
    (i2, .psingleton fn rep des i2)

/-- A registered service of the `part_012` container: its instantiable
and the (already stringified) names of its dependencies. -/
structure PService : Type where
  factory : PFactory
  dependencies : List String

/-- Structured errors of `part_012` `Container.get`.  `outOfFuel` is an
artifact of the fuel-indexed embedding; it is unreachable at sufficient
fuel for the acyclic registration sets the builder produces. -/
inductive PGetErr : Type where
  | destroyedErr (name : String)
  | noService (name : String)
  | outOfFuel
deriving DecidableEq, Repr

/-- The `part_012` container: its service map and its `isDestroyed` flag. -/
structure PContainer : Type where
  classes : List (String × PService)
  destroyed : Bool

mutual

/-- `Container.get` of `part_012`: fails on a destroyed container, then on
a missing service, then resolves the dependencies recursively (mutating
singleton instances along the way) and invokes `instantiate` on their
values. -/
def pGet : Nat → PContainer → String → Except PGetErr (JSVal × PContainer)
  | 0, _, _ => .error .outOfFuel
  | fuel + 1, c, name =>
    if c.destroyed then .error (.destroyedErr name)
    else
      match lookupA c.classes name with
      | none => .error (.noService name)
      | some svc₀ =>
        -- the service object is captured here; after dependency
        -- resolution its (possibly mutated) current state is re-read
        -- from the map, which holds that same object
        match pGetMany fuel c svc₀.dependencies with
        | .error e => .error e
        | .ok (vals, c₁) =>
          match lookupA c₁.classes name with
          | none => .error (.noService name)
          | some svc =>
            let r := pInstantiate svc.factory vals
            .ok (r.1, ⟨setAssoc c₁.classes name ⟨r.2, svc.dependencies⟩, c₁.destroyed⟩)

/-- Resolve a dependency list left to right, threading the container. -/
def pGetMany : Nat → PContainer → List String → Except PGetErr (List JSVal × PContainer)
  | _, c, [] => .ok ([], c)
  | fuel, c, n :: ns =>
    match pGet fuel c n with
    | .error e => .error e
    | .ok (v, c₁) =>
      match pGetMany fuel c₁ ns with
      | .error e => .error e
      | .ok (vs, c₂) => .ok (v :: vs, c₂)

end

/-- Structured errors of the `part_012` builder. -/
inductive PBuildErr : Type where
  | alreadyRegistered (name : String)
  | cannotRepairTransient (name : String)
  | cannotDestroyTransient (name : String)
  | noServiceFound (missing : List String)
  | circularDependency (name : String) (path : List String)
deriving DecidableEq, Repr

/-- The `part_012` container builder: the declaration-disorder flag and
the service map. -/
structure PBuilder : Type where
  disorder : Bool
  classes : List (String × PService)

/-- Build the instantiable stored for a registration
(`createInstantiableFactory(lifeCycle).fromFunction(fn, repair, destroy)`). -/
def pMakeFactory (lc : PLifeCycle) (fn : List JSVal → JSVal)
    (rep : Option (JSVal → List JSVal → JSVal)) (des : Option (JSVal → DOutcome)) :
    PFactory :=
  match lc with
  | .psing => .psingleton fn rep des .vundef
  | .ptrans => .ptransient fn

/-- `ContainerBuilder.fromFactory` of `part_012`: duplicate check, the
Transient `repair`/`destroy` prohibitions, and — unless declaration
disorder is enabled — a `NoServiceFoundError` carrying all missing
dependencies; on success the service is stored. -/
def pFromFactory (b : PBuilder) (name : String) (fn : List JSVal → JSVal)
    (deps : List String) (lc : PLifeCycle)
    (rep : Option (JSVal → List JSVal → JSVal)) (des : Option (JSVal → DOutcome)) :
    Except PBuildErr PBuilder :=
  if (lookupA b.classes name).isSome then .error (.alreadyRegistered name)
  else if lc = .ptrans ∧ rep.isSome then .error (.cannotRepairTransient name)
  else if lc = .ptrans ∧ des.isSome then .error (.cannotDestroyTransient name)
  else
    let missing := deps.filter (fun d => (lookupA b.classes d).isNone)
    if b.disorder = false ∧ missing ≠ [] then .error (.noServiceFound missing)
    else .ok ⟨b.disorder, setAssoc b.classes name ⟨pMakeFactory lc fn rep des, deps⟩⟩

mutual

/-- The visited-set depth-first search of `part_012`
(`ContainerBuilder.find`): the visitor records every name it sees in
`visited` and reports a hit when a name recurs anywhere in the search, not
only on the current path.  Fuel bounds the recursion depth; the top-level
entry point supplies enough for the search to run to completion. -/
def pFind (cl : List (String × PService)) :
    Nat → String → List String → Bool × List String
  | 0, _, vis => (false, vis)
  | fuel + 1, name, vis =>
    match lookupA cl name with
    | none => (false, vis)
    | some svc =>
      let wasVisited := vis.contains name
      let vis₁ := vis ++ [name]
      if wasVisited then (true, vis₁)
      else pFindMany cl fuel svc.dependencies vis₁

/-- The dependency loop of `ContainerBuilder.find`, short-circuiting on
the first hit. -/
def pFindMany (cl : List (String × PService)) :
    Nat → List String → List String → Bool × List String
  | _, [], vis => (false, vis)
  | fuel, n :: ns, vis =>
    match pFind cl fuel n vis with
    | (true, vis₁) => (true, vis₁)
    | (false, vis₁) => pFindMany cl fuel ns vis₁

end

/-- `ContainerBuilder.hasCircularDependency`: run the visited-set search
from one service with a fresh visited list. -/
def pHasCircularDependency (cl : List (String × PService)) (name : String) :
    Bool × List String :=
  pFind cl (cl.length + 2) name []

/-- `ContainerBuilder.checkDependenciesValidity`: scan every registered
service in insertion order and throw `CircularDependencyError(name, path)`
at the first reported hit. -/
def pCheckDependenciesValidity (b : PBuilder) : Except PBuildErr PBuilder :=
  match b.classes.find? (fun e => (pHasCircularDependency b.classes e.1).1) with
  | some e => .error (.circularDependency e.1 (pHasCircularDependency b.classes e.1).2)
  | none => .ok b

/-- The edge relation of a `part_012` service map (dependency edges). -/
def pEdge (cl : List (String × PService)) (a b : String) : Prop :=
  ∃ e ∈ cl, e.1 = a ∧ b ∈ e.2.dependencies

/-- The result of `Container.destroy` of `part_012`: the destroy-callback
invocations that actually happened (name and instance, in order), the sync
throw that aborted the loop (if any), the rejection reasons collected from
promise-returning callbacks (in order), and the resulting container.
`Promise.all` rejects with the first rejection reason only, recorded in
`aggReject`; when a callback throws synchronously the loop aborts, the
map is not cleared and the container is not marked destroyed. -/
structure DestroyRun : Type where
  invoked : List (String × JSVal)
  syncError : Option String
  rejections : List String
  final : PContainer

/-- `Singleton.destroy` of one entry: invoked only when a `destroy`
callback was supplied and the `instance` field is truthy; the follow-up
`.then` deletes the instance except when the callback threw synchronously
or its promise rejected. -/
def pDestroyEntry (f : PFactory) : Option DOutcome × PFactory :=
  match f with
  | .ptransient fn => (none, .ptransient fn)
  | .psingleton fn rep des inst =>
    match des with
    | none => (none, .psingleton fn rep none inst)
    | some d =>
      if inst.truthy then
        match d inst with
        | .dsyncOk => (some .dsyncOk, .psingleton fn rep (some d) .vundef)
        | .dsyncThrow e => (some (.dsyncThrow e), .psingleton fn rep (some d) inst)
        | .dasyncOk => (some .dasyncOk, .psingleton fn rep (some d) .vundef)
        | .dasyncReject e => (some (.dasyncReject e), .psingleton fn rep (some d) inst)
      else (none, .psingleton fn rep (some d) inst)

/-- The teardown loop of `Container.destroy`: walk the service map in
order, calling `factory.destroy()` on every destroyable entry (Singletons
are always destroyable, Transients never); a synchronous throw propagates
immediately, aborting the loop before the map is cleared. -/
def pDestroyLoop :
    List (String × PService) → List (String × JSVal) → List String →
      List (String × PService) → (List (String × JSVal) × List String ×
        Option String × List (String × PService))
  | [], inv, rej, acc => (inv, rej, none, acc)
  | (name, svc) :: rest, inv, rej, acc =>
    match pDestroyEntry svc.factory with
    | (none, f') => pDestroyLoop rest inv rej (acc ++ [(name, ⟨f', svc.dependencies⟩)])
    | (some out, f') =>
      let instv := match svc.factory with
        | .psingleton _ _ _ i => i
        | .ptransient _ => JSVal.vundef
      let inv₁ := inv ++ [(name, instv)]
      let acc₁ := acc ++ [(name, ⟨f', svc.dependencies⟩)]
      match out with
      | .dsyncThrow e => (inv₁, rej, some e, acc₁ ++ rest)
      | .dasyncReject e => pDestroyLoop rest inv₁ (rej ++ [e]) acc₁
      | _ => pDestroyLoop rest inv₁ rej acc₁

/-- `Container.destroy` of `part_012`: run the teardown loop; if no
callback threw synchronously, clear the map, set `isDestroyed`, and settle
`Promise.all` over the collected promise results (rejecting with the first
rejection reason, if any). -/
def pContainerDestroy (c : PContainer) : DestroyRun :=
  let r := pDestroyLoop c.classes [] [] []
  match r.2.2.1 with
  | some e => ⟨r.1, some e, r.2.1, ⟨r.2.2.2, c.destroyed⟩⟩
  | none => ⟨r.1, none, r.2.1, ⟨[], true⟩⟩

/-- The first rejection reason surfaced by the `Promise.all` aggregate of
a completed teardown (`none` when the aggregate fulfils). -/
def DestroyRun.aggReject (r : DestroyRun) : Option String :=
  r.rejections.head?

/-- The slots of a container whose destroy callback must run on teardown:
Singleton entries with a supplied callback and a truthy (populated)
instance, with the instance value, in map order. -/
def populatedWithCallback (cl : List (String × PService)) : List (String × JSVal) :=
  cl.filterMap (fun e =>
    match e.2.factory with
    | .psingleton _ _ (some _) inst => if inst.truthy then some (e.1, inst) else none
    | _ => none)

/-! ## The partitioned builder (`Implementation/Container.ts`) -/

/-- The lifecycle selector of the partitioned builder. -/
inductive NLifeCycle : Type where
  | singletonL
  | transientL
deriving DecidableEq, Repr

/-- Structured errors of the partitioned builder. -/
inductive NBuildErr : Type where
  | alreadyRegistered (key : String)
deriving DecidableEq, Repr

/-- The partitioned `ContainerBuilder`: four registries
(sync/async × singleton/transient) keyed by service key.  The payload type
`α` stands for the stored factory options. -/
structure NBuilder (α : Type) : Type where
  syncSingleton : List (String × α)
  syncTransient : List (String × α)
  asyncSingleton : List (String × α)
  asyncTransient : List (String × α)

/-- A builder with no registration. -/
def emptyNBuilder (α : Type) : NBuilder α := ⟨[], [], [], []⟩

/-- `isAlreadyRegistered`: present in any of the four registries. -/
def NBuilder.isAlreadyRegistered (b : NBuilder α) (key : String) : Bool :=
  (lookupA b.asyncTransient key).isSome || (lookupA b.asyncSingleton key).isSome ||
    (lookupA b.syncTransient key).isSome || (lookupA b.syncSingleton key).isSome

/-- Store into the sync registry of the given lifecycle
(`syncFactories.get(lifeCycle)?.set(key, options)`). -/
def NBuilder.setSync (b : NBuilder α) (lc : NLifeCycle) (key : String) (v : α) :
    NBuilder α :=
  match lc with
  | .singletonL => ⟨setAssoc b.syncSingleton key v, b.syncTransient,
      b.asyncSingleton, b.asyncTransient⟩
  | .transientL => ⟨b.syncSingleton, setAssoc b.syncTransient key v,
      b.asyncSingleton, b.asyncTransient⟩

/-- Store into the async registry of the given lifecycle. -/
def NBuilder.setAsync (b : NBuilder α) (lc : NLifeCycle) (key : String) (v : α) :
    NBuilder α :=
  match lc with
  | .singletonL => ⟨b.syncSingleton, b.syncTransient,
      setAssoc b.asyncSingleton key v, b.asyncTransient⟩
  | .transientL => ⟨b.syncSingleton, b.syncTransient,
      b.asyncSingleton, setAssoc b.asyncTransient key v⟩

/-- The sync registry of the given lifecycle. -/
def NBuilder.syncRegistry (b : NBuilder α) (lc : NLifeCycle) : List (String × α) :=
  match lc with
  | .singletonL => b.syncSingleton
  | .transientL => b.syncTransient

/-- `ContainerBuilder.addFactory`: duplicate check across all four
registries, then store the factory options in the sync registry of the
requested lifecycle. -/
def NBuilder.addFactory (b : NBuilder α) (key : String) (factory : α)
    (lc : NLifeCycle) : Except NBuildErr (NBuilder α) :=
  if b.isAlreadyRegistered key then .error (.alreadyRegistered key)
  else .ok (b.setSync lc key factory)

/-- `ContainerBuilder.addAsyncFactory`: duplicate check, then store in the
async registry of the requested lifecycle. -/
def NBuilder.addAsyncFactory (b : NBuilder α) (key : String) (factory : α)
    (lc : NLifeCycle) : Except NBuildErr (NBuilder α) :=
  if b.isAlreadyRegistered key then .error (.alreadyRegistered key)
  else .ok (b.setAsync lc key factory)

/-- `ContainerBuilder.addConstructor`: wraps the constructor into factory
options (`container => new constructor(container)`, here the already
wrapped payload) and stores it in the sync registry of the requested
lifecycle — with no duplicate check, so it never throws and `Map.set`
replaces any existing registration under that key. -/
def NBuilder.addConstructor (b : NBuilder α) (key : String) (wrapped : α)
    (lc : NLifeCycle) : NBuilder α :=
  b.setSync lc key wrapped

/-! ## The map-based lifecycle engine (`part_017` `ServiceStorage`) -/

/-- A lifecycle of the map-based engine: `Transient`, `Singleton` with its
`invalidate` predicate (default `() => false`) and optional `refresh`
callback, or `SemiTransient` with its window in seconds. -/
inductive MLifeCycle : Type where
  | mtransient
  | msingleton (invalidate : JSVal → Bool) (refresh : Option (JSVal → SyncOrAsync JSVal))
  | msemiTransient (timeBetweenRefresh : Int)

/-- A semi-transient cache entry: the `Date.valueOf()` (milliseconds) of
the last (re)creation and the cached value. -/
structure STEntry : Type where
  lastRefreshTime : Int
  value : SyncOrAsync JSVal
deriving DecidableEq, Repr

/-- The map-based `ServiceStorage` state: the two caches, plus the number
of invocations of the caller-supplied factory closure so far (modelling
the closure's own state, as in the repository's `() => i++` tests). -/
structure MapStorage : Type where
  singletonMap : List (String × SyncOrAsync JSVal)
  semiTransientMap : List (String × STEntry)
  calls : Nat
deriving DecidableEq, Repr

/-- `ServiceStorage.reloadCachedSingleton`: for a cached promise, chain
the invalidate / refresh decision behind it (flattening); for a plain
cached value, decide synchronously (a promise-returning refresh makes the
result a promise). -/
def msReload (inv : JSVal → Bool) (refresh : Option (JSVal → SyncOrAsync JSVal))
    (func : Nat → SyncOrAsync JSVal) (calls : Nat) (cached : SyncOrAsync JSVal) :
    SyncOrAsync JSVal × Nat :=
  match cached with
  | .later v =>
    if inv v then
      match refresh with
      | some r => (.later (r v).val, calls)
      | none => (.later (func calls).val, calls + 1)
    else (.later v, calls)
  | .now v =>
    if inv v then
      match refresh with
      | some r => (r v, calls)
      | none => (func calls, calls + 1)
    else (.now v, calls)

/-- Whether the stored singleton cache passes the
`cachedResult !== null && cachedResult !== undefined` test (a cached
promise object always does; a cached plain value only when non-nullish). -/
def msIsCached (cached : Option (SyncOrAsync JSVal)) : Bool :=
  match cached with
  | none => false
  | some (.later _) => true
  | some (.now v) => !v.nullish

/-- The stored cache slot read back as the JavaScript value
`singletonMap.get(identifier)` (absence is `undefined`). -/
def msCachedValue (cached : Option (SyncOrAsync JSVal)) : SyncOrAsync JSVal :=
  (cached).getD (.now .vundef)

/-- Whether a sync-or-async value is nullish as tested by `??` (a promise
object never is). -/
def saNullish : SyncOrAsync JSVal → Bool
  | .now v => v.nullish
  | .later _ => false

/-- `ServiceStorage.getOrInstantiate` of `part_017`/`part_018`: the
Singleton branch (null/undefined-gated cache, reload, `?? func()`,
unconditional `set`), the SemiTransient branch (timestamped cache with
window `timeBetweenRefresh * 1000` milliseconds against the supplied
`now`), and the Transient fallthrough.  `func` is the caller-supplied
factory closure, indexed by its invocation count. -/
def msGetOrInstantiate (st : MapStorage) (id : String) (lc : MLifeCycle)
    (func : Nat → SyncOrAsync JSVal) (now : Int) : SyncOrAsync JSVal × MapStorage :=
  match lc with
  | .msingleton inv refresh =>
    let cached := lookupA st.singletonMap id
    let reload :=
      if msIsCached cached then
        msReload inv refresh func st.calls (msCachedValue cached)
      else (msCachedValue cached, st.calls)
    let result :=
      if saNullish reload.1 then (func reload.2, reload.2 + 1) else reload
    (result.1, ⟨setAssoc st.singletonMap id result.1, st.semiTransientMap, result.2⟩)
  | .msemiTransient w =>
    let cached := lookupA st.semiTransientMap id
    let creation :=
      match cached with
      | some e => (e, st.calls)
      | none => (⟨now, func st.calls⟩, st.calls + 1)
    let nextRefreshTime := creation.1.lastRefreshTime + w * 1000
    let refreshed :=
      if nextRefreshTime ≤ now then
        ((⟨now, func creation.2⟩ : STEntry), creation.2 + 1)
      else creation
    (refreshed.1.value,
      ⟨st.singletonMap, setAssoc st.semiTransientMap id refreshed.1, refreshed.2⟩)
  | .mtransient => (func st.calls, ⟨st.singletonMap, st.semiTransientMap, st.calls + 1⟩)

/-- Run `getOrInstantiate` for the same identifier and lifecycle at each
of the supplied timestamps in turn, collecting the returned values. -/
def msRunSeq (st : MapStorage) (id : String) (lc : MLifeCycle)
    (func : Nat → SyncOrAsync JSVal) :
    List Int → List (SyncOrAsync JSVal) × MapStorage
  | [] => ([], st)
  | t :: ts =>
    let r := msGetOrInstantiate st id lc func t
    let rest := msRunSeq r.2 id lc func ts
    (r.1 :: rest.1, rest.2)


/-- Invariant: every fully-synchronous registration's cache slot holds an
immediate wrapper (true of the fresh state, preserved by resolution). -/
def StSync (g : DAGraph String ServiceSpec) (st : RState) : Prop :=
  ∀ (k : String) (vtx : GVertex String ServiceSpec), g.getVertex k = some vtx →
    vtx.value.fullySync = true → (getSlot st k).cache.isNow = true

/-- Invariant: every registration with an asynchronous factory has a cache
slot that is still untouched (`SyncPromise.from(undefined)`) or already
pending (true of the fresh state, preserved by resolution). -/
def StAsync (g : DAGraph String ServiceSpec) (st : RState) : Prop :=
  ∀ (k : String) (vtx : GVertex String ServiceSpec), g.getVertex k = some vtx →
    vtx.value.facAsync = true →
    (getSlot st k).cache = .now JSVal.vundef ∨ (getSlot st k).cache.isNow = false

/-- A concrete two-service registry: `dep` has an asynchronous transient
factory producing `1`, `top` a synchronous transient factory producing `2`
and depending on `dep`. -/
def gEx : DAGraph String ServiceSpec :=
  ⟨[⟨"dep", .transientS ⟨true, fun _ _ => .vnum 1⟩, []⟩,
    ⟨"top", .transientS ⟨false, fun _ _ => .vnum 2⟩, ["dep"]⟩]⟩

/-! ## Helper lemmas -/

theorem lookupA_map_replace_self [DecidableEq K] (m : List (K × α)) (k : K) (v : α)
    (h : (lookupA m k).isSome = true) :
    lookupA (m.map (fun e => if e.1 = k then (k, v) else e)) k = some v := by
  induction m with
  | nil => simp [lookupA] at h
  | cons e es ih =>
    by_cases he : e.1 = k
    · simp [lookupA, List.find?_cons, he]
    · simp only [lookupA, List.find?_cons, List.map_cons, if_neg he] at h ⊢
      simp only [decide_eq_false he] at h ⊢
      exact ih h

theorem lookupA_map_replace_other [DecidableEq K] (m : List (K × α)) (k k' : K) (v : α)
    (h : k' ≠ k) :
    lookupA (m.map (fun e => if e.1 = k then (k, v) else e)) k' = lookupA m k' := by
  induction m with
  | nil => simp [lookupA]
  | cons e es ih =>
    by_cases he : e.1 = k
    · have : ¬ (k = k') := fun hc => h hc.symm
      simp only [lookupA, List.map_cons, if_pos he, List.find?_cons] at ih ⊢
      simp only [decide_eq_false this, decide_eq_false (he ▸ this)]
      exact ih
    · by_cases he' : e.1 = k'
      · simp [lookupA, List.find?_cons, if_neg he, he', h]
      · simp only [lookupA, List.map_cons, if_neg he, List.find?_cons] at ih ⊢
        simp only [decide_eq_false he'] at ih ⊢
        exact ih

theorem lookupA_setAssoc_self [DecidableEq K] (m : List (K × α)) (k : K) (v : α) :
    lookupA (setAssoc m k v) k = some v := by
  unfold setAssoc
  split
  · rename_i hfind
    apply lookupA_map_replace_self
    simpa [lookupA] using hfind
  · rename_i hfind
    have hnone : m.find? (fun e => decide (e.1 = k)) = none := by
      cases h : m.find? (fun e => decide (e.1 = k)) with
      | none => rfl
      | some e => exact absurd (by simp [h]) hfind
    simp [lookupA, List.find?_append, hnone]

theorem lookupA_setAssoc_other [DecidableEq K] (m : List (K × α)) (k k' : K) (v : α)
    (h : k' ≠ k) : lookupA (setAssoc m k v) k' = lookupA m k' := by
  unfold setAssoc
  split
  · exact lookupA_map_replace_other m k k' v h
  · have : ¬ (k = k') := fun hc => h hc.symm
    simp [lookupA, List.find?_append, List.find?_cons, decide_eq_false this]

/-- A truthy JavaScript value is not nullish. -/
theorem JSVal.nullish_eq_false_of_truthy (v : JSVal) (h : v.truthy = true) :
    v.nullish = false := by
  cases v <;> simp_all [JSVal.truthy, JSVal.nullish]

/-- C3: `SyncPromise.allWithoutTypeChecking` (and the binary
`SyncPromise.all`) produce a single wrapper whose settled content is the
list of unwrapped input values in input order, and the result is immediate
(a `SyncPromise`) if and only if no input is a real `Promise`; if any
input is pending, the result is pending. -/
theorem c3_combine_order_and_immediacy (ps : List JsArg) :
    (spAllWithoutTypeChecking ps).val = ps.map JsArg.settled ∧
    ((spAllWithoutTypeChecking ps).isNow = true ↔ ∀ p ∈ ps, p.isProm = false) ∧
    (∀ a b : SyncOrAsync JSVal,
      (a.allTwo b).val = (a.val, b.val) ∧
      ((a.allTwo b).isNow = true ↔ a.isNow = true ∧ b.isNow = true)) := by
  refine ⟨?_, ?_, ?_⟩
  · unfold spAllWithoutTypeChecking
    split <;> simp [SyncOrAsync.val]
  · unfold spAllWithoutTypeChecking
    by_cases h : ps.any JsArg.isProm
    · simp only [if_pos h, SyncOrAsync.isNow]
      simp only [List.any_eq_true] at h
      obtain ⟨p, hp, hprom⟩ := h
      constructor
      · intro hfalse
        exact absurd hfalse (by simp)
      · intro hall
        exact absurd hprom (by simp [hall p hp])
    · simp only [if_neg h, SyncOrAsync.isNow]
      simp only [List.any_eq_true, not_exists] at h
      constructor
      · intro _ p hp
        by_cases hq : p.isProm = false
        · exact hq
        · exact absurd ⟨hp, by simpa using hq⟩ (h p)
      · intro _
        trivial
  · intro a b
    cases a <;> cases b <;>
      simp [SyncOrAsync.allTwo, SyncOrAsync.val, SyncOrAsync.isNow]

/-- C4: for the v1 `SingletonService` with a synchronous factory, an
`invalidate` predicate that holds of the first instance `A` but not of the
repaired instance `B = repair A`, and a synchronous `repair` callback: the
first `instantiate` returns `A` fresh from the factory, the second returns
`repair A` and caches it, and the third returns that identical repaired
instance again, with the factory invoked exactly once over all three
calls. -/
theorem c4_singleton_invalidate_repair
    (f : FactorySpec) (inv : JSVal → Bool) (rep : RepairSpec) (ds : List JSVal)
    (A B : JSVal)
    (hfs : f.isAsync = false) (hrs : rep.isAsync = false)
    (hA : f.fn 0 ds = A) (hAt : A.truthy = true) (hAi : inv A = true)
    (hB : rep.fn A = B) (hBt : B.truthy = true) (hBi : inv B = false) :
    (singletonInstantiate f (some inv) (some rep) ds initSlot).1 = .now A ∧
    (singletonInstantiate f (some inv) (some rep) ds
      (singletonInstantiate f (some inv) (some rep) ds initSlot).2).1 = .now B ∧
    (singletonInstantiate f (some inv) (some rep) ds
      (singletonInstantiate f (some inv) (some rep) ds
        (singletonInstantiate f (some inv) (some rep) ds initSlot).2).2).1 = .now B ∧
    (singletonInstantiate f (some inv) (some rep) ds
      (singletonInstantiate f (some inv) (some rep) ds
        (singletonInstantiate f (some inv) (some rep) ds initSlot).2).2).2.count = 1 := by
  have hAnn : A.nullish = false := JSVal.nullish_eq_false_of_truthy A hAt
  have hBnn : B.nullish = false := JSVal.nullish_eq_false_of_truthy B hBt
  have h1 : singletonInstantiate f (some inv) (some rep) ds initSlot =
      (.now A, ⟨.now A, 1⟩) := by
    simp [singletonInstantiate, singletonStep1, singletonCont1, singletonCont2,
      initSlot, SyncOrAsync.chain, SyncOrAsync.chainSt,
      SyncOrAsync.allTwo, JSVal.truthy, JSVal.nullish, FactorySpec.run, hfs, hA]
  have h2 : singletonInstantiate f (some inv) (some rep) ds ⟨.now A, 1⟩ =
      (.now B, ⟨.now B, 1⟩) := by
    simp [singletonInstantiate, singletonStep1, singletonCont1, singletonCont2,
      SyncOrAsync.chain, SyncOrAsync.chainSt,
      SyncOrAsync.allTwo, hAt, hAi, RepairSpec.run, hrs, hB, hBnn]
  have h3 : singletonInstantiate f (some inv) (some rep) ds ⟨.now B, 1⟩ =
      (.now B, ⟨.now B, 1⟩) := by
    simp [singletonInstantiate, singletonStep1, singletonCont1, singletonCont2,
      SyncOrAsync.chain, SyncOrAsync.chainSt,
      SyncOrAsync.allTwo, hBt, hBi, hBnn,
      show JSVal.vundef.nullish = true from rfl]
  rw [h1, h2, h3]
  simp

/-- Closed witness for the C4 theorem at a concrete factory, invalidate
predicate and repair callback. -/
theorem c4_singleton_invalidate_repair_witness :
    (singletonInstantiate ⟨false, fun _ _ => .vobj 1⟩
      (some (fun v => v = JSVal.vobj 1)) (some ⟨false, fun _ => .vobj 2⟩) []
      initSlot).1 = .now (.vobj 1) := by
  have h := c4_singleton_invalidate_repair ⟨false, fun _ _ => .vobj 1⟩
    (fun v => v = JSVal.vobj 1) ⟨false, fun _ => .vobj 2⟩ []
    (.vobj 1) (.vobj 2) rfl rfl rfl (by decide) (by simp) rfl (by decide) (by simp)
  exact h.1

/-- C5: for the map-based `ServiceStorage` with a SemiTransient lifecycle
of window `w` seconds, resolving at timestamps `t0 < t1 < t0 + w·1000 ≤ t2`
(milliseconds) from an empty slot returns the same cached value at `t0`
and `t1` and a freshly created, distinct value at `t2`; the cache then
carries creation timestamp `t2`.  Moreover, on any cached slot, recreation
happens exactly when the supplied `now` is at or past
`lastRefreshTime + w·1000`, resetting the stored timestamp to `now`. -/
theorem c5_semitransient_window (st : MapStorage) (id : String) (w t0 t1 t2 : Int)
    (func : Nat → SyncOrAsync JSVal)
    (hempty : lookupA st.semiTransientMap id = none)
    (h01 : t0 < t1) (h1w : t1 < t0 + w * 1000) (hw2 : t0 + w * 1000 ≤ t2)
    (hdist : func st.calls ≠ func (st.calls + 1)) :
    (msRunSeq st id (.msemiTransient w) func [t0, t1, t2]).1 =
      [func st.calls, func st.calls, func (st.calls + 1)] ∧
    func st.calls ≠ func (st.calls + 1) ∧
    lookupA (msRunSeq st id (.msemiTransient w) func [t0, t1, t2]).2.semiTransientMap id =
      some ⟨t2, func (st.calls + 1)⟩ ∧
    (msRunSeq st id (.msemiTransient w) func [t0, t1, t2]).2.calls = st.calls + 2 ∧
    (∀ (st' : MapStorage) (e : STEntry) (now : Int),
      lookupA st'.semiTransientMap id = some e →
      (e.lastRefreshTime + w * 1000 ≤ now →
        msGetOrInstantiate st' id (.msemiTransient w) func now =
          (func st'.calls, ⟨st'.singletonMap,
            setAssoc st'.semiTransientMap id ⟨now, func st'.calls⟩, st'.calls + 1⟩)) ∧
      (¬ e.lastRefreshTime + w * 1000 ≤ now →
        msGetOrInstantiate st' id (.msemiTransient w) func now =
          (e.value, ⟨st'.singletonMap, setAssoc st'.semiTransientMap id e, st'.calls⟩))) := by
  have hstep : ∀ (st' : MapStorage) (e : STEntry) (now : Int),
      lookupA st'.semiTransientMap id = some e →
      (e.lastRefreshTime + w * 1000 ≤ now →
        msGetOrInstantiate st' id (.msemiTransient w) func now =
          (func st'.calls, ⟨st'.singletonMap,
            setAssoc st'.semiTransientMap id ⟨now, func st'.calls⟩, st'.calls + 1⟩)) ∧
      (¬ e.lastRefreshTime + w * 1000 ≤ now →
        msGetOrInstantiate st' id (.msemiTransient w) func now =
          (e.value, ⟨st'.singletonMap, setAssoc st'.semiTransientMap id e, st'.calls⟩)) := by
    intro st' e now hl
    constructor
    · intro hle
      simp [msGetOrInstantiate, hl, hle]
    · intro hgt
      simp [msGetOrInstantiate, hl, hgt]
  have hnot0 : ¬ t0 + w * 1000 ≤ t0 := by omega
  have hnot1 : ¬ t0 + w * 1000 ≤ t1 := by omega
  have h1 : msGetOrInstantiate st id (.msemiTransient w) func t0 =
      (func st.calls, ⟨st.singletonMap,
        setAssoc st.semiTransientMap id ⟨t0, func st.calls⟩, st.calls + 1⟩) := by
    simp [msGetOrInstantiate, hempty, hnot0]
  have hl1 : lookupA (setAssoc st.semiTransientMap id
      (⟨t0, func st.calls⟩ : STEntry)) id = some ⟨t0, func st.calls⟩ :=
    lookupA_setAssoc_self _ _ _
  have h2 := (hstep ⟨st.singletonMap,
      setAssoc st.semiTransientMap id ⟨t0, func st.calls⟩, st.calls + 1⟩
      ⟨t0, func st.calls⟩ t1 hl1).2 hnot1
  have hl2 : lookupA (setAssoc (setAssoc st.semiTransientMap id
      (⟨t0, func st.calls⟩ : STEntry)) id (⟨t0, func st.calls⟩ : STEntry)) id =
      some ⟨t0, func st.calls⟩ :=
    lookupA_setAssoc_self _ _ _
  have h3 := (hstep ⟨st.singletonMap,
      setAssoc (setAssoc st.semiTransientMap id ⟨t0, func st.calls⟩) id
        ⟨t0, func st.calls⟩, st.calls + 1⟩
      ⟨t0, func st.calls⟩ t2 hl2).1 hw2
  refine ⟨?_, hdist, ?_, ?_, hstep⟩ <;>
    simp [msRunSeq, h1, h2, h3, lookupA_setAssoc_self]

/-- Closed witness for the C5 theorem: window 240 s, calls at 0 s, 60 s
and 240 s, with the counting factory of the repository's own test. -/
theorem c5_semitransient_window_witness :
    (msRunSeq ⟨[], [], 0⟩ "my-service" (.msemiTransient 240)
        (fun n => .now (.vnum n)) [0, 60000, 240000]).1 =
      [.now (.vnum 0), .now (.vnum 0), .now (.vnum 1)] := by
  have h := c5_semitransient_window ⟨[], [], 0⟩ "my-service" 240 0 60000 240000
    (fun n => .now (.vnum n)) (by simp [lookupA]) (by omega) (by omega) (by omega)
    (by decide)
  simpa using h.1

/-- C10: in the map-based engine, Singleton caching is gated by a
null/undefined check on the produced value.  (i) From any state whose
cache slot fails that check, `getOrInstantiate` invokes the factory and
returns its value; when every produced value is (synchronously) nullish
the slot keeps failing the check, so over any number of calls the factory
is invoked every single time.  (ii) A non-nullish produced value is stored
in the slot, and with the default (never-true) invalidate predicate every
subsequent call returns the cached value without invoking the factory. -/
theorem c10_singleton_null_gate (id : String) :
    (∀ (inv : JSVal → Bool) (refresh : Option (JSVal → SyncOrAsync JSVal))
       (func : Nat → SyncOrAsync JSVal) (st : MapStorage) (now : Int),
       msIsCached (lookupA st.singletonMap id) = false →
       msGetOrInstantiate st id (.msingleton inv refresh) func now =
         (func st.calls, ⟨setAssoc st.singletonMap id (func st.calls),
           st.semiTransientMap, st.calls + 1⟩)) ∧
    (∀ (inv : JSVal → Bool) (refresh : Option (JSVal → SyncOrAsync JSVal))
       (func : Nat → SyncOrAsync JSVal) (st : MapStorage) (m : Nat),
       (∀ n, saNullish (func n) = true) →
       msIsCached (lookupA st.singletonMap id) = false →
       (msRunSeq st id (.msingleton inv refresh) func (List.replicate m 0)).2.calls =
         st.calls + m) ∧
    (∀ (refresh : Option (JSVal → SyncOrAsync JSVal))
       (func : Nat → SyncOrAsync JSVal) (st : MapStorage) (now : Int)
       (v : SyncOrAsync JSVal),
       lookupA st.singletonMap id = some v → msIsCached (some v) = true →
       msGetOrInstantiate st id (.msingleton (fun _ => false) refresh) func now =
         (v, ⟨setAssoc st.singletonMap id v, st.semiTransientMap, st.calls⟩)) := by
  have hmiss : ∀ (inv : JSVal → Bool) (refresh : Option (JSVal → SyncOrAsync JSVal))
      (func : Nat → SyncOrAsync JSVal) (st : MapStorage) (now : Int),
      msIsCached (lookupA st.singletonMap id) = false →
      msGetOrInstantiate st id (.msingleton inv refresh) func now =
        (func st.calls, ⟨setAssoc st.singletonMap id (func st.calls),
          st.semiTransientMap, st.calls + 1⟩) := by
    intro inv refresh func st now hnc
    have hnullish : saNullish (msCachedValue (lookupA st.singletonMap id)) = true := by
      cases hc : lookupA st.singletonMap id with
      | none => simp [msCachedValue, saNullish, JSVal.nullish]
      | some v =>
        cases v with
        | later x => simp [hc, msIsCached] at hnc
        | now x =>
          have : x.nullish = true := by
            by_cases hx : x.nullish = true
            · exact hx
            · simp [hc, msIsCached, hx] at hnc
          simp [msCachedValue, saNullish, this]
    simp [msGetOrInstantiate, hnc, hnullish]
  refine ⟨hmiss, ?_, ?_⟩
  · intro inv refresh func st m hnull
    induction m generalizing st with
    | zero => intro _; simp [msRunSeq]
    | succ m ih =>
      intro hnc
      have hstep := hmiss inv refresh func st 0 hnc
      have hnext : msIsCached (lookupA
          (setAssoc st.singletonMap id (func st.calls)) id) = false := by
        rw [lookupA_setAssoc_self]
        have := hnull st.calls
        cases hf : func st.calls with
        | later x => simp [hf, saNullish] at this
        | now x => simp [hf, saNullish] at this; simp [msIsCached, this]
      have := ih ⟨setAssoc st.singletonMap id (func st.calls),
        st.semiTransientMap, st.calls + 1⟩ hnext
      simp only [List.replicate, msRunSeq, hstep]
      simp at this ⊢
      omega
  · intro refresh func st now v hl hcv
    have hreload : msReload (fun _ => false) refresh func st.calls v = (v, st.calls) := by
      cases v <;> simp [msReload]
    have hnn : saNullish v = false := by
      cases v with
      | later x => simp [saNullish]
      | now x =>
        simp [msIsCached] at hcv
        simp [saNullish, hcv]
    simp [msGetOrInstantiate, hl, msIsCached] at *
    simp [msCachedValue, hl, hcv, hreload, hnn]

/-- Closed witness for the C10 theorem: a null-returning factory is
re-invoked on all three calls, and the caching conjunct applies to a
populated non-nullish slot. -/
theorem c10_singleton_null_gate_witness :
    (msRunSeq ⟨[], [], 0⟩ "my-service"
        (.msingleton (fun _ => false) none) (fun _ => .now .vnull)
        (List.replicate 3 0)).2.calls = 3 ∧
    msGetOrInstantiate ⟨[("my-service", .now (.vobj 9))], [], 1⟩ "my-service"
        (.msingleton (fun _ => false) none) (fun _ => .now .vnull) 0 =
      (.now (.vobj 9), ⟨[("my-service", .now (.vobj 9))], [], 1⟩) := by
  constructor
  · have h := (c10_singleton_null_gate "my-service").2.1 (fun _ => false) none
      (fun _ => .now .vnull) ⟨[], [], 0⟩ 3
      (by intro n; simp [saNullish, JSVal.nullish])
      (by simp [lookupA, msIsCached])
    simpa using h
  · have h := (c10_singleton_null_gate "my-service").2.2 none
      (fun _ => .now .vnull) ⟨[("my-service", .now (.vobj 9))], [], 1⟩ 0
      (.now (.vobj 9)) (by simp [lookupA, List.find?]) (by decide)
    simpa [setAssoc, lookupA, List.find?] using h

/-- C9 counterexample: after `addFactory` has registered key `"a"`, the
`addConstructor` of `Implementation/Container.ts` registers the same key
again without any duplicate check — it succeeds (it cannot throw at all)
and replaces the existing registration instead of leaving it unchanged. -/
theorem c9_addconstructor_overwrites_duplicate :
    ∃ b : NBuilder Nat, (emptyNBuilder Nat).addFactory "a" 1 .singletonL = .ok b ∧
      b.syncSingleton = [("a", 1)] ∧
      (b.addConstructor "a" 2 .singletonL).syncSingleton = [("a", 2)] := by
  refine ⟨⟨[("a", 1)], [], [], []⟩, ?_, rfl, ?_⟩
  · rfl
  · simp [NBuilder.addConstructor, NBuilder.setSync, setAssoc, List.find?]

/-- C9 (amended): `addFactory` and `addAsyncFactory` reject an identifier
already registered in any of the four registries (any lifecycle, either
capability) with the duplicate-registration error, leaving the builder
unchanged; `addConstructor`, by contrast, performs no duplicate check — it
always succeeds and overwrites the sync registration of the requested
lifecycle under that key. -/
theorem c9_duplicate_rejection {α : Type} (b : NBuilder α) (k : String) (f g : α)
    (lc : NLifeCycle) (hdup : b.isAlreadyRegistered k = true) :
    b.addFactory k f lc = .error (.alreadyRegistered k) ∧
    b.addAsyncFactory k f lc = .error (.alreadyRegistered k) ∧
    lookupA ((b.addConstructor k g lc).syncRegistry lc) k = some g := by
  refine ⟨?_, ?_, ?_⟩
  · simp [NBuilder.addFactory, hdup]
  · simp [NBuilder.addAsyncFactory, hdup]
  · cases lc <;>
      simp [NBuilder.addConstructor, NBuilder.setSync, NBuilder.syncRegistry,
        lookupA_setAssoc_self]

/-- Closed witness for the amended C9 theorem at a one-entry builder. -/
theorem c9_duplicate_rejection_witness :
    (NBuilder.addFactory ⟨[("a", 1)], [], [], []⟩ "a" 2 .transientL : Except NBuildErr (NBuilder Nat)) =
      .error (.alreadyRegistered "a") := by
  have h := c9_duplicate_rejection (α := Nat) ⟨[("a", 1)], [], [], []⟩ "a" 2 3
    .transientL (by simp [NBuilder.isAlreadyRegistered, lookupA, List.find?])
  exact h.1

/-- Closed witness for the C3 theorem on a mixed argument list. -/
theorem c3_combine_order_and_immediacy_witness :
    (spAllWithoutTypeChecking [.syncp (.vnum 1), .prom (.vnum 2)]).isNow = false := by
  have h := c3_combine_order_and_immediacy [.syncp (.vnum 1), .prom (.vnum 2)]
  by_cases hn : (spAllWithoutTypeChecking
      [JsArg.syncp (.vnum 1), JsArg.prom (.vnum 2)]).isNow = true
  · have := (h.2.1.mp hn) (JsArg.prom (.vnum 2)) (by simp)
    simp [JsArg.isProm] at this
  · simpa using hn

/-- The teardown loop with no synchronously-throwing callback: every
populated-with-callback slot is invoked (appended to `invoked`), every
promise rejection is collected in order, and no sync error is reported. -/
theorem pDestroyLoop_no_sync_throw (rest : List (String × PService)) :
    ∀ (inv : List (String × JSVal)) (rej : List String)
      (acc : List (String × PService)),
    (∀ e ∈ rest, ∀ msg, (pDestroyEntry e.2.factory).1 ≠ some (.dsyncThrow msg)) →
    (pDestroyLoop rest inv rej acc).1 = inv ++ populatedWithCallback rest ∧
    (pDestroyLoop rest inv rej acc).2.1 = rej ++ rest.filterMap (fun e =>
      match (pDestroyEntry e.2.factory).1 with
      | some (.dasyncReject msg) => some msg
      | _ => none) ∧
    (pDestroyLoop rest inv rej acc).2.2.1 = none := by
  induction rest with
  | nil => intro inv rej acc _; simp [pDestroyLoop, populatedWithCallback]
  | cons e es ih =>
    intro inv rej acc hns
    have hes : ∀ e' ∈ es, ∀ msg,
        (pDestroyEntry e'.2.factory).1 ≠ some (.dsyncThrow msg) := by
      intro e' he' msg
      exact hns e' (List.mem_cons_of_mem _ he') msg
    have he := hns e (List.mem_cons_self _ _)
    obtain ⟨name, svc⟩ := e
    cases hf : svc.factory with
    | ptransient fn =>
      have h1 := ih inv rej (acc ++ [(name, ⟨.ptransient fn, svc.dependencies⟩)]) hes
      simp only [pDestroyLoop, pDestroyEntry, hf, populatedWithCallback,
        List.filterMap_cons]
      simpa [populatedWithCallback] using h1
    | psingleton fn rep des inst =>
      cases des with
      | none =>
        have h1 := ih inv rej
          (acc ++ [(name, ⟨.psingleton fn rep none inst, svc.dependencies⟩)]) hes
        simp only [pDestroyLoop, pDestroyEntry, hf, populatedWithCallback,
          List.filterMap_cons]
        simpa [populatedWithCallback] using h1
      | some d =>
        by_cases ht : inst.truthy = true
        · cases hout : d inst with
          | dsyncOk =>
            have h1 := ih (inv ++ [(name, inst)]) rej
              (acc ++ [(name, ⟨.psingleton fn rep (some d) .vundef,
                svc.dependencies⟩)]) hes
            simp only [pDestroyLoop, pDestroyEntry, hf, ht, hout,
              populatedWithCallback, List.filterMap_cons] at h1 ⊢
            simp only [if_pos ht] at *
            simpa [populatedWithCallback, ht, hout] using h1
          | dsyncThrow msg =>
            exfalso
            apply he msg
            simp [pDestroyEntry, hf, ht, hout]
          | dasyncOk =>
            have h1 := ih (inv ++ [(name, inst)]) rej
              (acc ++ [(name, ⟨.psingleton fn rep (some d) .vundef,
                svc.dependencies⟩)]) hes
            simp only [pDestroyLoop, pDestroyEntry, hf, ht, hout,
              populatedWithCallback, List.filterMap_cons] at h1 ⊢
            simp only [if_pos ht] at *
            simpa [populatedWithCallback, ht, hout] using h1
          | dasyncReject msg =>
            have h1 := ih (inv ++ [(name, inst)]) (rej ++ [msg])
              (acc ++ [(name, ⟨.psingleton fn rep (some d) inst,
                svc.dependencies⟩)]) hes
            simp only [pDestroyLoop, pDestroyEntry, hf, ht, hout,
              populatedWithCallback, List.filterMap_cons] at h1 ⊢
            simp only [if_pos ht] at *
            simpa [populatedWithCallback, ht, hout] using h1
        · have h1 := ih inv rej
            (acc ++ [(name, ⟨.psingleton fn rep (some d) inst,
              svc.dependencies⟩)]) hes
          simp only [pDestroyLoop, pDestroyEntry, hf, ht, populatedWithCallback,
            List.filterMap_cons] at h1 ⊢
          simpa [populatedWithCallback, ht] using h1

/-- C7: when no destroy callback throws synchronously (so `destroy()`
runs to completion), the `part_012` container invokes the supplied destroy
callback exactly once per Singleton slot that is actually populated
(truthy instance) — the invocation list is exactly the populated
slots-with-callback of the map, in order, each listed once — never for an
unpopulated slot, and afterwards every `get` call on the resulting
container fails with the destroyed-container error. -/
theorem c7_destroy_populated_slots_then_destroyed_error (c : PContainer)
    (hns : ∀ e ∈ c.classes, ∀ msg,
      (pDestroyEntry e.2.factory).1 ≠ some (.dsyncThrow msg)) :
    (pContainerDestroy c).invoked = populatedWithCallback c.classes ∧
    (pContainerDestroy c).syncError = none ∧
    (pContainerDestroy c).final = ⟨[], true⟩ ∧
    ∀ (fuel : Nat) (name : String),
      pGet (fuel + 1) (pContainerDestroy c).final name =
        .error (.destroyedErr name) := by
  have h := pDestroyLoop_no_sync_throw c.classes [] [] [] hns
  have hfin : pContainerDestroy c =
      ⟨populatedWithCallback c.classes,
        none,
        c.classes.filterMap (fun e =>
          match (pDestroyEntry e.2.factory).1 with
          | some (.dasyncReject msg) => some msg
          | _ => none),
        ⟨[], true⟩⟩ := by
    unfold pContainerDestroy
    simp only [h.1, h.2.1, h.2.2, List.nil_append]
  refine ⟨by rw [hfin], by rw [hfin], by rw [hfin], ?_⟩
  intro fuel name
  rw [hfin]
  simp [pGet]

/-- Closed witness for the C7 theorem: two singletons, one populated with
a destroy callback, one never instantiated — only the populated slot's
callback is invoked, and a subsequent `get` fails with the
destroyed-container error. -/
theorem c7_destroy_populated_slots_witness :
    (pContainerDestroy ⟨[
        ("db", ⟨.psingleton (fun _ => .vobj 1) none (some (fun _ => .dsyncOk))
          (.vobj 1), []⟩),
        ("never", ⟨.psingleton (fun _ => .vobj 2) none (some (fun _ => .dsyncOk))
          .vundef, []⟩)], false⟩).invoked = [("db", .vobj 1)] ∧
    pGet 5 (pContainerDestroy ⟨[
        ("db", ⟨.psingleton (fun _ => .vobj 1) none (some (fun _ => .dsyncOk))
          (.vobj 1), []⟩),
        ("never", ⟨.psingleton (fun _ => .vobj 2) none (some (fun _ => .dsyncOk))
          .vundef, []⟩)], false⟩).final "db" = .error (.destroyedErr "db") := by
  have h := c7_destroy_populated_slots_then_destroyed_error
    ⟨[("db", ⟨.psingleton (fun _ => .vobj 1) none (some (fun _ => .dsyncOk))
        (.vobj 1), []⟩),
      ("never", ⟨.psingleton (fun _ => .vobj 2) none (some (fun _ => .dsyncOk))
        .vundef, []⟩)], false⟩
    (by
      intro e he msg
      simp only [List.mem_cons, List.mem_singleton] at he
      rcases he with he | he | he
      · subst he; simp [pDestroyEntry, JSVal.truthy]
      · subst he; simp [pDestroyEntry, JSVal.truthy]
      · exact absurd he (by simp))
  refine ⟨?_, ?_⟩
  · rw [h.1]
    simp [populatedWithCallback, JSVal.truthy]
  · have h4 := h.2.2.2 4 "db"
    exact h4

/-- C8 counterexample: with two populated singleton slots whose destroy
callbacks both exist, the first callback throwing synchronously aborts the
teardown loop of `Container.destroy` — the second populated slot's
callback is never invoked, the error propagates as-is (no aggregation),
and the container is not even marked destroyed. -/
theorem c8_sync_throw_aborts_teardown :
    ((pContainerDestroy ⟨[
        ("s1", ⟨.psingleton (fun _ => .vobj 1) none
          (some (fun _ => .dsyncThrow "boom")) (.vobj 1), []⟩),
        ("s2", ⟨.psingleton (fun _ => .vobj 2) none
          (some (fun _ => .dsyncOk)) (.vobj 2), []⟩)], false⟩).invoked.map
            Prod.fst = ["s1"]) ∧
    ((populatedWithCallback [
        ("s1", ⟨.psingleton (fun _ => .vobj 1) none
          (some (fun _ => .dsyncThrow "boom")) (.vobj 1), []⟩),
        ("s2", ⟨.psingleton (fun _ => .vobj 2) none
          (some (fun _ => .dsyncOk)) (.vobj 2), []⟩)]).map Prod.fst =
      ["s1", "s2"]) ∧
    (pContainerDestroy ⟨[
        ("s1", ⟨.psingleton (fun _ => .vobj 1) none
          (some (fun _ => .dsyncThrow "boom")) (.vobj 1), []⟩),
        ("s2", ⟨.psingleton (fun _ => .vobj 2) none
          (some (fun _ => .dsyncOk)) (.vobj 2), []⟩)], false⟩).syncError =
      some "boom" ∧
    (pContainerDestroy ⟨[
        ("s1", ⟨.psingleton (fun _ => .vobj 1) none
          (some (fun _ => .dsyncThrow "boom")) (.vobj 1), []⟩),
        ("s2", ⟨.psingleton (fun _ => .vobj 2) none
          (some (fun _ => .dsyncOk)) (.vobj 2), []⟩)], false⟩).final.destroyed =
      false := by
  refine ⟨?_, ?_, ?_, ?_⟩ <;>
    simp [pContainerDestroy, pDestroyLoop, pDestroyEntry, populatedWithCallback,
      JSVal.truthy]

/-- C8 (amended): destroy callbacks that return rejected promises do not
prevent the remaining callbacks from running — with no synchronous throw,
every populated slot's callback is invoked and all rejection reasons are
collected in order — but the failure surfaced by `destroy()`'s
`Promise.all` is only the *first* rejection, not an aggregate of all of
them; a callback that throws synchronously aborts the teardown loop,
leaving the remaining callbacks uninvoked (see the counterexample). -/
theorem c8_rejections_collected_first_surfaced (c : PContainer)
    (hns : ∀ e ∈ c.classes, ∀ msg,
      (pDestroyEntry e.2.factory).1 ≠ some (.dsyncThrow msg)) :
    (pContainerDestroy c).invoked = populatedWithCallback c.classes ∧
    (pContainerDestroy c).rejections = c.classes.filterMap (fun e =>
      match (pDestroyEntry e.2.factory).1 with
      | some (.dasyncReject msg) => some msg
      | _ => none) ∧
    (pContainerDestroy c).aggReject = (c.classes.filterMap (fun e =>
      match (pDestroyEntry e.2.factory).1 with
      | some (.dasyncReject msg) => some msg
      | _ => none)).head? := by
  have h := pDestroyLoop_no_sync_throw c.classes [] [] [] hns
  have hinv : (pContainerDestroy c).invoked = populatedWithCallback c.classes := by
    unfold pContainerDestroy
    simp only [h.1, h.2.1, h.2.2, List.nil_append]
  have hrej : (pContainerDestroy c).rejections = c.classes.filterMap (fun e =>
      match (pDestroyEntry e.2.factory).1 with
      | some (.dasyncReject msg) => some msg
      | _ => none) := by
    unfold pContainerDestroy
    simp only [h.1, h.2.1, h.2.2, List.nil_append]
  exact ⟨hinv, hrej, by rw [DestroyRun.aggReject, hrej]⟩

/-- Closed witness for the amended C8 theorem: two rejecting callbacks and
one fulfilling one — all three populated slots are invoked, both rejection
reasons are collected, and only the first is surfaced. -/
theorem c8_rejections_collected_first_surfaced_witness :
    ((pContainerDestroy ⟨[
        ("s1", ⟨.psingleton (fun _ => .vobj 1) none
          (some (fun _ => .dasyncReject "r1")) (.vobj 1), []⟩),
        ("s2", ⟨.psingleton (fun _ => .vobj 2) none
          (some (fun _ => .dasyncReject "r2")) (.vobj 2), []⟩),
        ("s3", ⟨.psingleton (fun _ => .vobj 3) none
          (some (fun _ => .dsyncOk)) (.vobj 3), []⟩)], false⟩).invoked.map
            Prod.fst = ["s1", "s2", "s3"]) ∧
    (pContainerDestroy ⟨[
        ("s1", ⟨.psingleton (fun _ => .vobj 1) none
          (some (fun _ => .dasyncReject "r1")) (.vobj 1), []⟩),
        ("s2", ⟨.psingleton (fun _ => .vobj 2) none
          (some (fun _ => .dasyncReject "r2")) (.vobj 2), []⟩),
        ("s3", ⟨.psingleton (fun _ => .vobj 3) none
          (some (fun _ => .dsyncOk)) (.vobj 3), []⟩)], false⟩).aggReject =
      some "r1" := by
  have h := c8_rejections_collected_first_surfaced ⟨[
      ("s1", ⟨.psingleton (fun _ => .vobj 1) none
        (some (fun _ => .dasyncReject "r1")) (.vobj 1), []⟩),
      ("s2", ⟨.psingleton (fun _ => .vobj 2) none
        (some (fun _ => .dasyncReject "r2")) (.vobj 2), []⟩),
      ("s3", ⟨.psingleton (fun _ => .vobj 3) none
        (some (fun _ => .dsyncOk)) (.vobj 3), []⟩)], false⟩
    (by
      intro e he msg
      simp only [List.mem_cons, List.mem_singleton] at he
      rcases he with he | he | he | he
      · subst he; simp [pDestroyEntry, JSVal.truthy]
      · subst he; simp [pDestroyEntry, JSVal.truthy]
      · subst he; simp [pDestroyEntry, JSVal.truthy]
      · exact absurd he (by simp))
  refine ⟨?_, ?_⟩
  · rw [h.1]
    simp [populatedWithCallback, JSVal.truthy]
  · rw [h.2.2]
    simp [pDestroyEntry, JSVal.truthy]

/-- A relation admitting a strictly decreasing rank has no cycle. -/
theorem acyclic_of_rank {K : Type} (r : K → K → Prop) (rk : K → Nat)
    (h : ∀ a b, r a b → rk b < rk a) : ∀ k, ¬ Relation.TransGen r k k := by
  have hTG : ∀ a b, Relation.TransGen r a b → rk b < rk a := by
    intro a b htg
    induction htg with
    | single h1 => exact h _ _ h1
    | tail _ h2 ih => exact lt_trans (h _ _ h2) ih
  intro k hk
  exact lt_irrefl _ (hTG k k hk)

/-- C6 (the code's divergence from the claim): the diamond registration
set `a → [b, c]`, `b → [d]`, `c → [d]`, `d → []` is acyclic — its
dependency-edge relation admits no cycle — yet `checkDependenciesValidity`
reports `CircularDependencyError("a", [a, b, d, c, d])`, because the
depth-first search tracks a global visited set instead of the current
path, so the shared dependency `d` is flagged on its second (off-path)
visit. -/
theorem c6_diamond_falsely_flagged_circular :
    (∀ k, ¬ Relation.TransGen (pEdge [
        ("a", ⟨.ptransient (fun _ => .vundef), ["b", "c"]⟩),
        ("b", ⟨.ptransient (fun _ => .vundef), ["d"]⟩),
        ("c", ⟨.ptransient (fun _ => .vundef), ["d"]⟩),
        ("d", ⟨.ptransient (fun _ => .vundef), []⟩)]) k k) ∧
    pCheckDependenciesValidity ⟨true, [
        ("a", ⟨.ptransient (fun _ => .vundef), ["b", "c"]⟩),
        ("b", ⟨.ptransient (fun _ => .vundef), ["d"]⟩),
        ("c", ⟨.ptransient (fun _ => .vundef), ["d"]⟩),
        ("d", ⟨.ptransient (fun _ => .vundef), []⟩)]⟩ =
      .error (.circularDependency "a" ["a", "b", "d", "c", "d"]) := by
  constructor
  · apply acyclic_of_rank _
      (fun k => if k = "a" then 2 else if k = "d" then 0 else 1)
    intro a b hr
    obtain ⟨e, he, hea, hb⟩ := hr
    simp only [List.mem_cons, List.mem_singleton] at he
    rcases he with he | he | he | he | he <;>
      (try subst he) <;> subst hea <;> simp_all <;> rcases hb with hb | hb <;>
        simp_all
  · simp [pCheckDependenciesValidity, pHasCircularDependency, pFind, pFindMany,
      lookupA, List.find?]

theorem rkOf_append_lt_of_mem [DecidableEq K] (s t : List K) (k : K) (h : k ∈ s) :
    rkOf (s ++ t) k < s.length := by
  induction s with
  | nil => simp at h
  | cons a as ih =>
    by_cases hak : a = k
    · simp [rkOf, hak]
    · have hk : k ∈ as := by
        rcases List.mem_cons.mp h with h' | h'
        · exact absurd h'.symm hak
        · exact h'
      simp only [List.cons_append, rkOf, if_neg hak, List.length_cons]
      exact Nat.succ_lt_succ (ih hk)

theorem rkOf_append_not_mem [DecidableEq K] (s t : List K) (k : K) (h : k ∉ s) :
    rkOf (s ++ (k :: t)) k = s.length := by
  induction s with
  | nil => simp [rkOf]
  | cons a as ih =>
    have hak : a ≠ k := fun hc => h (hc ▸ List.mem_cons_self a as)
    have has : k ∉ as := fun hc => h (List.mem_cons_of_mem a hc)
    simp only [List.cons_append, rkOf, if_neg hak, List.length_cons]
    exact congrArg Nat.succ (ih has)

theorem layeredL_rank {V : Type} (vs : List (GVertex String V)) :
    ∀ seen : List String, LayeredL seen vs →
      ∀ vtx ∈ vs, ∀ n ∈ vtx.neighbours,
        rkOf (seen ++ vs.map GVertex.key) n <
          rkOf (seen ++ vs.map GVertex.key) vtx.key := by
  induction vs with
  | nil => intro seen _ vtx hvtx; simp at hvtx
  | cons v rest ih =>
    intro seen hL vtx hvtx n hn
    obtain ⟨hnb, hfresh, hrest⟩ := hL
    rcases List.mem_cons.mp hvtx with hv | hv
    · subst hv
      have h1 := rkOf_append_lt_of_mem seen (vtx.key :: rest.map GVertex.key) n
        (hnb n hn)
      have h2 := rkOf_append_not_mem seen (rest.map GVertex.key) vtx.key hfresh
      simp only [List.map_cons]
      omega
    · have := ih (seen ++ [v.key]) hrest vtx hv n hn
      simpa [List.append_assoc] using this

theorem layeredL_append {V : Type} (vs : List (GVertex String V)) :
    ∀ (seen : List String) (v : GVertex String V), LayeredL seen vs →
      (∀ n ∈ v.neighbours, n ∈ seen ++ vs.map GVertex.key) →
      v.key ∉ seen ++ vs.map GVertex.key → LayeredL seen (vs ++ [v]) := by
  induction vs with
  | nil =>
    intro seen v _ hnb hkey
    refine ⟨by simpa using hnb, by simpa using hkey, trivial⟩
  | cons u rest ih =>
    intro seen v hL hnb hkey
    obtain ⟨h1, h2, h3⟩ := hL
    refine ⟨h1, h2, ?_⟩
    apply ih (seen ++ [u.key]) v h3
    · intro n hn
      have := hnb n hn
      simpa [List.append_assoc] using this
    · intro hc
      exact hkey (by simpa [List.append_assoc] using hc)

theorem isVertexExisting_iff_mem {V : Type} (g : DAGraph String V) (k : String) :
    g.isVertexExisting k = true ↔ k ∈ g.vertices.map GVertex.key := by
  simp only [DAGraph.isVertexExisting, DAGraph.getVertex, List.find?_isSome,
    decide_eq_true_eq, List.mem_map]

theorem reachableFresh_layered {V : Type} (g : DAGraph String V)
    (h : ReachableFresh g) : LayeredL ([] : List String) g.vertices := by
  induction h with
  | empty => trivial
  | step hr hfresh hok ih =>
    rename_i g₀ g' k v ns
    unfold DAGraph.addVertex at hok
    cases hfind : ns.find? (fun n => !(g₀.isVertexExisting n)) with
    | some m => rw [hfind] at hok; exact absurd hok (by simp)
    | none =>
      rw [hfind] at hok
      have hvs : g'.vertices = g₀.vertices ++ [⟨k, v, ns⟩] := by
        cases hok'' : hok
        rfl
      rw [hvs]
      apply layeredL_append g₀.vertices [] ⟨k, v, ns⟩ ih
      · intro n hn
        have hex : g₀.isVertexExisting n = true := by
          have := List.find?_eq_none.mp hfind n hn
          simpa using this
        simpa using (isVertexExisting_iff_mem g₀ n).mp hex
      · intro hc
        have : g₀.isVertexExisting k = true :=
          (isVertexExisting_iff_mem g₀ k).mpr (by simpa using hc)
        rw [this] at hfresh
        exact absurd hfresh (by simp)

theorem acyclic_of_layered {V : Type} (g : DAGraph String V)
    (hL : LayeredL ([] : List String) g.vertices) : g.Acyclic := by
  apply acyclic_of_rank g.edge (rkOf (g.vertices.map GVertex.key))
  intro a b hab
  obtain ⟨vtx, hv, hk, hn⟩ := hab
  subst hk
  have := layeredL_rank g.vertices [] hL vtx hv b hn
  simpa using this

theorem reachableSvc_fresh (g : DAGraph String ServiceSpec) (h : ReachableSvc g) :
    ReachableFresh g := by
  induction h with
  | empty => exact ReachableFresh.empty
  | step hr hok ih =>
    rename_i g₀ g' name spec deps
    unfold addServiceV1 at hok
    by_cases hex : g₀.isVertexExisting name = true
    · rw [if_pos hex] at hok
      exact absurd hok (by simp)
    · rw [if_neg hex] at hok
      cases hfind : deps.find? (fun d => !(g₀.isVertexExisting d)) with
      | some d => rw [hfind] at hok; exact absurd hok (by simp)
      | none =>
        rw [hfind] at hok
        cases haddv : g₀.addVertex name spec deps with
        | error e => rw [haddv] at hok; exact absurd hok (by simp)
        | ok g₂ =>
          rw [haddv] at hok
          have hg : g₂ = g' := by
            cases hok
            rfl
          exact ReachableFresh.step ih (by simpa using hex) (hg ▸ haddv)

/-- C1 counterexample: raw `addVertex` performs no duplicate-key check, so
a successful insertion sequence *can* produce a cycle in the induced edge
relation: insert `"a"` with no neighbours, then insert `"a"` again
depending on `"a"` — the neighbour check passes (a vertex named `"a"`
already exists), the call succeeds, and the second stored vertex induces
the self-edge `a → a`. -/
theorem c1_duplicate_key_makes_cycle :
    ∃ g₁ g₂ : DAGraph String Nat,
      DAGraph.addVertex ⟨[]⟩ "a" 0 [] = .ok g₁ ∧
      g₁.addVertex "a" 0 ["a"] = .ok g₂ ∧
      Relation.TransGen g₂.edge "a" "a" := by
  refine ⟨⟨[⟨"a", 0, []⟩]⟩, ⟨[⟨"a", 0, []⟩, ⟨"a", 0, ["a"]⟩]⟩, ?_, ?_, ?_⟩
  · rfl
  · simp [DAGraph.addVertex, DAGraph.isVertexExisting, DAGraph.getVertex,
      List.find?]
  · exact Relation.TransGen.single ⟨⟨"a", 0, ["a"]⟩, by simp, rfl, by simp⟩

/-- C1 (amended): (i) `addVertex` with a dependency key not present in the
graph fails with the unknown-neighbour error (naming a missing
dependency), inserting nothing; (ii) so does the v1 `addService`, with its
`DependencyNotFoundError`; (iii) so does the `part_012` `fromFactory` in
insertion-order mode, with `NoServiceFoundError` listing the missing
dependencies; and the edge relation induced by the stored `dependsOn`
lists is acyclic (iv) for every graph reachable by successful `addVertex`
calls whose key is not already present — raw `addVertex` does not itself
check for duplicate keys, and re-inserting an existing key can create a
cycle, see the counterexample — and in particular (v) for every graph
reachable through `addService`, which rejects duplicate identifiers. -/
theorem c1_insertion_order_guards_and_acyclicity :
    (∀ (V : Type) (g : DAGraph String V) (k : String) (v : V) (ns : List String)
       (n : String), n ∈ ns → g.isVertexExisting n = false →
       ∃ m, m ∈ ns ∧ g.isVertexExisting m = false ∧
         g.addVertex k v ns = .error (.noNeighbour k m)) ∧
    (∀ (g : DAGraph String ServiceSpec) (name : String) (spec : ServiceSpec)
       (deps : List String) (d : String),
       g.isVertexExisting name = false → d ∈ deps →
       g.isVertexExisting d = false →
       ∃ m, m ∈ deps ∧ g.isVertexExisting m = false ∧
         addServiceV1 g name spec deps = .error (.dependencyNotFound name m)) ∧
    (∀ (b : PBuilder) (name : String) (fn : List JSVal → JSVal)
       (deps : List String) (d : String)
       (rep : Option (JSVal → List JSVal → JSVal))
       (des : Option (JSVal → DOutcome)),
       b.disorder = false → lookupA b.classes name = none → d ∈ deps →
       lookupA b.classes d = none →
       ∃ missing, missing ≠ [] ∧ (∀ m ∈ missing, lookupA b.classes m = none) ∧
         pFromFactory b name fn deps .psing rep des =
           .error (.noServiceFound missing)) ∧
    (∀ (V : Type) (g : DAGraph String V), ReachableFresh g → g.Acyclic) ∧
    (∀ g : DAGraph String ServiceSpec, ReachableSvc g → g.Acyclic) := by
  refine ⟨?_, ?_, ?_, ?_, ?_⟩
  · intro V g k v ns n hn hmiss
    have hsome : (ns.find? (fun n => !(g.isVertexExisting n))).isSome = true :=
      List.find?_isSome.mpr ⟨n, hn, by simp [hmiss]⟩
    cases hfind : ns.find? (fun n => !(g.isVertexExisting n)) with
    | none => rw [hfind] at hsome; exact absurd hsome (by simp)
    | some m =>
      refine ⟨m, List.mem_of_find?_eq_some hfind, ?_, ?_⟩
      · have := List.find?_some hfind
        simpa using this
      · simp [DAGraph.addVertex, hfind]
  · intro g name spec deps d hname hd hdmiss
    have hsome : (deps.find? (fun n => !(g.isVertexExisting n))).isSome = true :=
      List.find?_isSome.mpr ⟨d, hd, by simp [hdmiss]⟩
    cases hfind : deps.find? (fun n => !(g.isVertexExisting n)) with
    | none => rw [hfind] at hsome; exact absurd hsome (by simp)
    | some m =>
      refine ⟨m, List.mem_of_find?_eq_some hfind, ?_, ?_⟩
      · have := List.find?_some hfind
        simpa using this
      · simp [addServiceV1, hname, hfind]
  · intro b name fn deps d rep des hdis hname hd hdmiss
    refine ⟨deps.filter (fun x => (lookupA b.classes x).isNone), ?_, ?_, ?_⟩
    · intro hc
      have : d ∈ deps.filter (fun x => (lookupA b.classes x).isNone) :=
        List.mem_filter.mpr ⟨hd, by simp [hdmiss]⟩
      rw [hc] at this
      exact absurd this (by simp)
    · intro m hm
      have := (List.mem_filter.mp hm).2
      simpa using this
    · have hne : deps.filter (fun x => (lookupA b.classes x).isNone) ≠ [] := by
        intro hc
        have : d ∈ deps.filter (fun x => (lookupA b.classes x).isNone) :=
          List.mem_filter.mpr ⟨hd, by simp [hdmiss]⟩
        rw [hc] at this
        exact absurd this (by simp)
      simp [pFromFactory, hname, hdis, hne]
  · intro V g hr
    exact acyclic_of_layered g (reachableFresh_layered g hr)
  · intro g hr
    exact acyclic_of_layered g (reachableFresh_layered g (reachableSvc_fresh g hr))

/-- Closed witness for the amended C1 theorem: inserting a vertex with a
missing neighbour into the empty graph fails with the unknown-neighbour
error, and a concrete two-insertion fresh-key graph is acyclic. -/
theorem c1_insertion_order_guards_witness :
    (DAGraph.addVertex (⟨[]⟩ : DAGraph String Nat) "b" 0 ["a"] =
      .error (.noNeighbour "b" "a")) ∧
    DAGraph.Acyclic (⟨[⟨"a", 0, []⟩, ⟨"b", 0, ["a"]⟩]⟩ : DAGraph String Nat) := by
  have h := c1_insertion_order_guards_and_acyclicity
  constructor
  · obtain ⟨m, hm, _, herr⟩ := h.1 Nat ⟨[]⟩ "b" 0 ["a"] "a" (by simp)
      (by simp [DAGraph.isVertexExisting, DAGraph.getVertex, List.find?])
    have : m = "a" := by simpa using hm
    rw [this] at herr
    exact herr
  · apply h.2.2.2.1 Nat
    exact @ReachableFresh.step String Nat _ ⟨[⟨"a", 0, []⟩]⟩ _ "b" 0 ["a"]
      (@ReachableFresh.step String Nat _ ⟨[]⟩ ⟨[⟨"a", 0, []⟩]⟩ "a" 0 []
        ReachableFresh.empty rfl rfl)
      rfl
      (by simp [DAGraph.addVertex, DAGraph.isVertexExisting, DAGraph.getVertex,
        List.find?])


/-! ## Sync/async transparency of the v1 resolver (claim C2) -/

theorem chain_now {α β : Type} (a : α) (f : α → SyncOrAsync β) :
    (SyncOrAsync.now a).chain f = f a := rfl

theorem chainSt_now {α β σ : Type} (a : α) (f : α → SyncOrAsync β × σ) :
    (SyncOrAsync.now a).chainSt f = f a := rfl

theorem allTwo_now {α β : Type} (a : α) (b : β) :
    (SyncOrAsync.now a).allTwo (SyncOrAsync.now b) = .now (a, b) := rfl

theorem chain_val {α β : Type} (x : SyncOrAsync α) (f : α → SyncOrAsync β) :
    (x.chain f).val = (f x.val).val := by
  cases x <;> simp [SyncOrAsync.chain, SyncOrAsync.val]

theorem allTwo_val {α β : Type} (x : SyncOrAsync α) (y : SyncOrAsync β) :
    (x.allTwo y).val = (x.val, y.val) := by
  cases x <;> cases y <;> simp [SyncOrAsync.allTwo, SyncOrAsync.val]

theorem chainSt_val {α β σ : Type} (x : SyncOrAsync α) (f : α → SyncOrAsync β × σ) :
    (x.chainSt f).1.val = (f x.val).1.val ∧ (x.chainSt f).2 = (f x.val).2 := by
  cases x <;> simp [SyncOrAsync.chainSt, SyncOrAsync.val]

theorem facRun_val (f : FactorySpec) (n : Nat) (ds : List JSVal) :
    (f.run n ds).val = f.fn n ds := by
  unfold FactorySpec.run
  split <;> rfl

theorem repRun_val (r : RepairSpec) (v : JSVal) :
    (r.run v).val = r.fn v := by
  unfold RepairSpec.run
  split <;> rfl

theorem syncF_run (f : FactorySpec) (n : Nat) (ds : List JSVal) :
    f.syncF.run n ds = .now ((f.run n ds).val) := by
  cases hA : f.isAsync <;>
    simp [FactorySpec.syncF, FactorySpec.run, hA, SyncOrAsync.val]

theorem syncR_run (r : RepairSpec) (v : JSVal) :
    r.syncR.run v = .now ((r.run v).val) := by
  cases hA : r.isAsync <;>
    simp [RepairSpec.syncR, RepairSpec.run, hA, SyncOrAsync.val]

theorem singletonCont1_syncify (f : FactorySpec) (rep : Option RepairSpec)
    (ds : List JSVal) (c₀ : Nat) (p : Bool × JSVal) :
    singletonCont1 f.syncF (rep.map RepairSpec.syncR) ds c₀ p =
      (.now (singletonCont1 f rep ds c₀ p).1.val,
        (singletonCont1 f rep ds c₀ p).2) := by
  unfold singletonCont1
  cases hp : p.1 with
  | false => simp [SyncOrAsync.val]
  | true =>
    cases rep with
    | none => simp [syncF_run]
    | some r => simp [syncR_run]

theorem singletonCont2_syncify (f : FactorySpec) (ds : List JSVal) (c₁ : Nat)
    (p : JSVal × JSVal) :
    singletonCont2 f.syncF ds c₁ p =
      (.now (singletonCont2 f ds c₁ p).1.val, (singletonCont2 f ds c₁ p).2) := by
  unfold singletonCont2
  by_cases h2 : p.2.nullish = false
  · simp [h2, SyncOrAsync.val]
  · by_cases h1 : p.1.nullish = false
    · simp [h2, h1, SyncOrAsync.val]
    · simp [h2, h1, syncF_run]

theorem singletonStep1_syncify (f : FactorySpec) (inv : Option (JSVal → Bool))
    (rep : Option RepairSpec) (ds : List JSVal) (slot : SlotState) :
    singletonStep1 f.syncF inv (rep.map RepairSpec.syncR) ds slot.syncSlot =
      (.now (singletonStep1 f inv rep ds slot).1.val,
        (singletonStep1 f inv rep ds slot).2) := by
  unfold singletonStep1
  dsimp only
  have hcache : slot.syncSlot.cache = .now slot.cache.val := rfl
  have hcount : slot.syncSlot.count = slot.count := rfl
  rw [hcache, hcount, chain_now, allTwo_now, chainSt_now, singletonCont1_syncify]
  have hval := chainSt_val
    ((slot.cache.chain (fun inner =>
      SyncOrAsync.now (if inner.truthy then (inv.getD (fun _ => false)) inner
        else false))).allTwo slot.cache)
    (singletonCont1 f rep ds slot.count)
  rw [hval.1, hval.2, allTwo_val, chain_val]
  rfl

theorem singletonInstantiate_syncify (f : FactorySpec)
    (inv : Option (JSVal → Bool)) (rep : Option RepairSpec) (ds : List JSVal)
    (slot : SlotState) :
    singletonInstantiate f.syncF inv (rep.map RepairSpec.syncR) ds slot.syncSlot =
      (.now (singletonInstantiate f inv rep ds slot).1.val,
        (singletonInstantiate f inv rep ds slot).2.syncSlot) := by
  unfold singletonInstantiate
  dsimp only
  rw [singletonStep1_syncify]
  have hcache : slot.syncSlot.cache = .now slot.cache.val := rfl
  rw [hcache, allTwo_now, chainSt_now, singletonCont2_syncify]
  have hval := chainSt_val (slot.cache.allTwo (singletonStep1 f inv rep ds slot).1)
    (singletonCont2 f ds (singletonStep1 f inv rep ds slot).2)
  rw [hval.1, hval.2, allTwo_val]
  simp [SlotState.syncSlot, hval.1, hval.2, allTwo_val]

/-- The fully-sync variant of a stored service behaves like the original,
producing the immediate wrapper of the same settled value, the same
count and the sync-forced cache. -/
theorem svcInstantiate_syncify (spec : ServiceSpec) (ds : List JSVal)
    (slot : SlotState) :
    svcInstantiate spec.syncSpec ds slot.syncSlot =
      (.now (svcInstantiate spec ds slot).1.val,
        (svcInstantiate spec ds slot).2.syncSlot) := by
  cases spec with
  | transientS f =>
    simp [svcInstantiate, ServiceSpec.syncSpec, syncF_run, SlotState.syncSlot]
  | singletonS f inv rep =>
    simpa [svcInstantiate, ServiceSpec.syncSpec] using
      singletonInstantiate_syncify f inv rep ds slot

theorem getSlot_syncSt (st : RState) (k : String) :
    getSlot (syncSt st) k = (getSlot st k).syncSlot := by
  unfold getSlot syncSt lookupA
  rw [List.find?_map]
  have hpred : ((fun e : String × SlotState => decide (e.1 = k)) ∘
      fun e : String × SlotState => (e.1, e.2.syncSlot)) =
      fun e : String × SlotState => decide (e.1 = k) := by
    funext e
    rfl
  rw [hpred]
  cases h : st.find? (fun e : String × SlotState => decide (e.1 = k)) with
  | none => rfl
  | some e => rfl

theorem setSlot_syncSt (st : RState) (k : String) (s : SlotState) :
    setSlot (syncSt st) k s.syncSlot = syncSt (setSlot st k s) := by
  unfold setSlot setAssoc syncSt
  have hpred : ((fun e : String × SlotState => decide (e.1 = k)) ∘
      fun e : String × SlotState => (e.1, e.2.syncSlot)) =
      fun e : String × SlotState => decide (e.1 = k) := by
    funext e
    rfl
  rw [List.find?_map, hpred]
  have hsome : (Option.map (fun e : String × SlotState => (e.1, e.2.syncSlot))
      (List.find? (fun e : String × SlotState => decide (e.1 = k)) st)).isSome =
      (List.find? (fun e : String × SlotState => decide (e.1 = k)) st).isSome := by
    cases List.find? (fun e : String × SlotState => decide (e.1 = k)) st <;> rfl
  rw [hsome]
  split
  · rw [List.map_map, List.map_map]
    apply List.map_congr_left
    intro e _
    by_cases he : e.1 = k <;> simp [he]
  · simp

theorem syncify_getVertex (g : DAGraph String ServiceSpec) (k : String) :
    g.syncify.getVertex k = (g.getVertex k).map
      (fun v => ⟨v.key, v.value.syncSpec, v.neighbours⟩) := by
  unfold DAGraph.syncify DAGraph.getVertex
  rw [List.find?_map]
  have hpred : ((fun v : GVertex String ServiceSpec => decide (v.key = k)) ∘
      fun v : GVertex String ServiceSpec => (⟨v.key, v.value.syncSpec, v.neighbours⟩ :
        GVertex String ServiceSpec)) =
      fun v : GVertex String ServiceSpec => decide (v.key = k) := by
    funext v
    rfl
  rw [hpred]

/-- The resolver on the fully-synchronous variant of the graph is the
original resolver with every produced wrapper forced immediate: same
settled values, same factory-invocation counts, sync-forced caches. -/
theorem resolve_syncify (g : DAGraph String ServiceSpec) (fuel : Nat) :
    (∀ (st : RState) (k : String),
      resolveV1 g.syncify fuel (syncSt st) k =
        (resolveV1 g fuel st k).map
          (fun p => (.now p.1.val, syncSt p.2))) ∧
    (∀ (st : RState) (ns : List String),
      resolveMany g.syncify fuel (syncSt st) ns =
        (resolveMany g fuel st ns).map
          (fun p => (p.1.map (fun v => SyncOrAsync.now v.val), syncSt p.2))) := by
  induction fuel with
  | zero =>
    constructor
    · intro st k
      simp [resolveV1]
    · intro st ns
      cases ns with
      | nil => simp [resolveMany]
      | cons n ns => simp [resolveMany, resolveV1]
  | succ fuel ih =>
    have hnode : ∀ (st : RState) (k : String),
        resolveV1 g.syncify (fuel + 1) (syncSt st) k =
          (resolveV1 g (fuel + 1) st k).map
            (fun p => (.now p.1.val, syncSt p.2)) := by
      intro st k
      rw [resolveV1, resolveV1, syncify_getVertex]
      cases hv : g.getVertex k with
      | none => simp
      | some vtx =>
        dsimp only [Option.map]
        rw [ih.2 st vtx.neighbours]
        cases hm : resolveMany g fuel st vtx.neighbours with
        | none => simp
        | some p =>
          obtain ⟨deps, st₁⟩ := p
          dsimp only [Option.map]
          have hany : (deps.map (fun v => SyncOrAsync.now v.val)).any
              (fun d => d.isNow = false) = false := by
            simp [List.any_map, Function.comp, SyncOrAsync.isNow]
          have hsettled : (deps.map (fun v => SyncOrAsync.now v.val)).map
              SyncOrAsync.val = deps.map SyncOrAsync.val := by
            rw [List.map_map]
            apply List.map_congr_left
            intro d _
            rfl
          simp only [hany, hsettled, Bool.false_eq_true, if_false,
            getSlot_syncSt, svcInstantiate_syncify, setSlot_syncSt]
          cases hasync : deps.any (fun d => d.isNow = false) <;>
            simp [SyncOrAsync.val]
    refine ⟨hnode, ?_⟩
    intro st ns
    induction ns generalizing st with
    | nil => simp [resolveMany]
    | cons n ns ihn =>
      rw [resolveMany, resolveMany, hnode st n]
      cases hr : resolveV1 g (fuel + 1) st n with
      | none => simp
      | some p =>
        obtain ⟨v, st₁⟩ := p
        dsimp only [Option.map]
        rw [ihn st₁]
        cases hm : resolveMany g (fuel + 1) st₁ ns with
        | none => simp
        | some q => simp

theorem getSlot_setSlot_self (st : RState) (k : String) (s : SlotState) :
    getSlot (setSlot st k s) k = s := by
  unfold getSlot setSlot
  rw [lookupA_setAssoc_self]
  rfl

theorem getSlot_setSlot_other (st : RState) (k k' : String) (s : SlotState)
    (h : k' ≠ k) : getSlot (setSlot st k s) k' = getSlot st k' := by
  unfold getSlot setSlot
  rw [lookupA_setAssoc_other _ _ _ _ h]

theorem facRun_sync (f : FactorySpec) (n : Nat) (ds : List JSVal)
    (h : f.isAsync = false) : f.run n ds = .now (f.fn n ds) := by
  simp [FactorySpec.run, h]

theorem facRun_async (f : FactorySpec) (n : Nat) (ds : List JSVal)
    (h : f.isAsync = true) : f.run n ds = .later (f.fn n ds) := by
  simp [FactorySpec.run, h]

theorem repRun_sync (r : RepairSpec) (v : JSVal) (h : r.isAsync = false) :
    r.run v = .now (r.fn v) := by
  simp [RepairSpec.run, h]

/-- A fully-synchronous service resolved on an immediate cache produces an
immediate result and leaves an immediate cache. -/
theorem svcInstantiate_fullySync (spec : ServiceSpec) (ds : List JSVal)
    (slot : SlotState) (hs : spec.fullySync = true)
    (hc : slot.cache.isNow = true) :
    (svcInstantiate spec ds slot).1.isNow = true ∧
    (svcInstantiate spec ds slot).2.cache.isNow = true := by
  obtain ⟨c, hcache⟩ : ∃ c, slot.cache = .now c := by
    cases h : slot.cache with
    | now c => exact ⟨c, rfl⟩
    | later c => rw [h] at hc; exact absurd hc (by simp [SyncOrAsync.isNow])
  cases spec with
  | transientS f =>
    have hf : f.isAsync = false := by simpa [ServiceSpec.fullySync] using hs
    simp [svcInstantiate, facRun_sync f _ _ hf, SyncOrAsync.isNow, hcache]
  | singletonS f inv rep =>
    have hsync : f.isAsync = false ∧ ∀ r, rep = some r → r.isAsync = false := by
      cases hrep : rep with
      | none =>
        subst hrep
        simp [ServiceSpec.fullySync] at hs
        exact ⟨hs, by simp⟩
      | some r =>
        subst hrep
        simp [ServiceSpec.fullySync] at hs
        refine ⟨hs.1, ?_⟩
        intro r' hr'
        cases hr'
        exact hs.2
    have hf : f.isAsync = false := hsync.1
    have hstep1 : ∃ x cnt, singletonStep1 f inv rep ds slot = (.now x, cnt) := by
      unfold singletonStep1
      dsimp only
      rw [hcache, chain_now, allTwo_now, chainSt_now]
      unfold singletonCont1
      by_cases hp : (if c.truthy = true then (inv.getD (fun _ => false)) c
          else false) = true
      · simp only [hp, if_true]
        cases hrep : rep with
        | some r =>
          have hr : r.isAsync = false := hsync.2 r hrep
          exact ⟨r.fn c, slot.count, by simp [repRun_sync r _ hr]⟩
        | none =>
          exact ⟨f.fn slot.count ds, slot.count + 1, by
            simp [facRun_sync f _ _ hf]⟩
      · simp only [hp, if_false]
        exact ⟨.vundef, slot.count, rfl⟩
    obtain ⟨x, cnt, hstep1⟩ := hstep1
    have : ∃ y cy, singletonInstantiate f inv rep ds slot = (.now y, ⟨.now y, cy⟩) := by
      unfold singletonInstantiate
      rw [hstep1]
      dsimp only
      rw [hcache, allTwo_now, chainSt_now]
      unfold singletonCont2
      by_cases h2 : x.nullish = false
      · exact ⟨x, cnt, by simp [h2]⟩
      · by_cases h1 : c.nullish = false
        · exact ⟨c, cnt, by simp [h2, h1]⟩
        · exact ⟨f.fn cnt ds, cnt + 1, by simp [h2, h1, facRun_sync f _ _ hf]⟩
    obtain ⟨y, cy, hres⟩ := this
    simp [svcInstantiate, hres, SyncOrAsync.isNow]

/-- A singleton whose factory is asynchronous, resolved on an untouched or
pending cache, produces a pending result and leaves a pending cache. -/
theorem singletonInstantiate_async (f : FactorySpec)
    (inv : Option (JSVal → Bool)) (rep : Option RepairSpec) (ds : List JSVal)
    (slot : SlotState) (hf : f.isAsync = true)
    (hc : slot.cache = .now JSVal.vundef ∨ slot.cache.isNow = false) :
    (singletonInstantiate f inv rep ds slot).1.isNow = false ∧
    (singletonInstantiate f inv rep ds slot).2.cache.isNow = false := by
  rcases hc with hc | hc
  · have hstep1 : singletonStep1 f inv rep ds slot = (.now .vundef, slot.count) := by
      unfold singletonStep1
      dsimp only
      rw [hc, chain_now, allTwo_now, chainSt_now]
      simp [singletonCont1, JSVal.truthy]
    have : singletonInstantiate f inv rep ds slot =
        (.later (f.fn slot.count ds), ⟨.later (f.fn slot.count ds), slot.count + 1⟩) := by
      unfold singletonInstantiate
      rw [hstep1]
      dsimp only
      rw [hc, allTwo_now, chainSt_now]
      simp [singletonCont2, JSVal.nullish, facRun_async f _ _ hf]
    simp [this, SyncOrAsync.isNow]
  · obtain ⟨c, hcache⟩ : ∃ c, slot.cache = .later c := by
      cases h : slot.cache with
      | later c => exact ⟨c, rfl⟩
      | now c => rw [h] at hc; exact absurd hc (by simp [SyncOrAsync.isNow])
    unfold singletonInstantiate
    dsimp only
    rw [hcache]
    have hall : ∀ (y : SyncOrAsync JSVal),
        (SyncOrAsync.later c).allTwo y = .later (c, y.val) := by
      intro y
      cases y <;> rfl
    rw [hall]
    simp [SyncOrAsync.chainSt, SyncOrAsync.isNow]

/-- Resolution preserves the sync-cache invariant, and on an all-sync
subtree produces an immediate result. -/
theorem resolve_allSync (g : DAGraph String ServiceSpec) (fuel : Nat) :
    (∀ (st : RState) (k : String) (r : SyncOrAsync JSVal) (st' : RState),
      StSync g st → resolveV1 g fuel st k = some (r, st') →
      StSync g st' ∧ (allSyncReg g fuel k = true → r.isNow = true)) ∧
    (∀ (st : RState) (ns : List String) (vs : List (SyncOrAsync JSVal))
       (st' : RState),
      StSync g st → resolveMany g fuel st ns = some (vs, st') →
      StSync g st' ∧ (ns.all (allSyncReg g fuel) = true →
        ∀ v ∈ vs, v.isNow = true)) := by
  induction fuel with
  | zero =>
    constructor
    · intro st k r st' _ hres
      simp [resolveV1] at hres
    · intro st ns vs st' hinv hres
      cases ns with
      | nil =>
        simp only [resolveMany, Option.some.injEq, Prod.mk.injEq] at hres
        obtain ⟨hvs, hst⟩ := hres
        subst hvs
        subst hst
        exact ⟨hinv, by intro _ v hv; simp at hv⟩
      | cons n ns => simp [resolveMany, resolveV1] at hres
  | succ fuel ih =>
    have hnode : ∀ (st : RState) (k : String) (r : SyncOrAsync JSVal)
        (st' : RState), StSync g st → resolveV1 g (fuel + 1) st k = some (r, st') →
        StSync g st' ∧ (allSyncReg g (fuel + 1) k = true → r.isNow = true) := by
      intro st k r st' hinv hres
      rw [resolveV1] at hres
      cases hv : g.getVertex k with
      | none => rw [hv] at hres; simp at hres
      | some vtx =>
        rw [hv] at hres
        dsimp only at hres
        cases hm : resolveMany g fuel st vtx.neighbours with
        | none => rw [hm] at hres; simp at hres
        | some p =>
          obtain ⟨deps, st₁⟩ := p
          rw [hm] at hres
          dsimp only at hres
          simp only [Option.some.injEq, Prod.mk.injEq] at hres
          obtain ⟨hr, hst⟩ := hres
          subst hr
          subst hst
          have hlist := ih.2 st vtx.neighbours deps st₁ hinv hm
          constructor
          · intro k' vtx' hv' hs'
            by_cases hkk : k' = k
            · subst hkk
              rw [hv'] at hv
              have hvv : vtx = vtx' := (Option.some.inj hv).symm
              subst hvv
              rw [getSlot_setSlot_self]
              have hcache : (getSlot st₁ k').cache.isNow = true :=
                hlist.1 k' vtx hv' hs'
              exact (svcInstantiate_fullySync vtx.value _ _ hs' hcache).2
            · rw [getSlot_setSlot_other _ _ _ _ hkk]
              exact hlist.1 k' vtx' hv' hs'
          · intro hall
            simp only [allSyncReg, hv, Bool.and_eq_true] at hall
            obtain ⟨hfs, hnall⟩ := hall
            have hdeps := hlist.2 hnall
            have hany : (deps.any fun d => d.isNow = false) = false := by
              rw [List.any_eq_false]
              intro d hd
              simp [hdeps d hd]
            rw [hany]
            have hcache : (getSlot st₁ k).cache.isNow = true :=
              hlist.1 k vtx hv hfs
            simpa using (svcInstantiate_fullySync vtx.value _ _ hfs hcache).1
    refine ⟨hnode, ?_⟩
    intro st ns
    induction ns generalizing st with
    | nil =>
      intro vs st' hinv hres
      simp only [resolveMany, Option.some.injEq, Prod.mk.injEq] at hres
      obtain ⟨hvs, hst⟩ := hres
      subst hvs
      subst hst
      exact ⟨hinv, by intro _ v hv; simp at hv⟩
    | cons n ns ihn =>
      intro vs st' hinv hres
      rw [resolveMany] at hres
      cases hr : resolveV1 g (fuel + 1) st n with
      | none => rw [hr] at hres; simp at hres
      | some p =>
        obtain ⟨v, st₁⟩ := p
        rw [hr] at hres
        dsimp only at hres
        cases hm : resolveMany g (fuel + 1) st₁ ns with
        | none => rw [hm] at hres; simp at hres
        | some q =>
          obtain ⟨vs', st₂⟩ := q
          rw [hm] at hres
          simp only [Option.some.injEq, Prod.mk.injEq] at hres
          obtain ⟨hvs, hst⟩ := hres
          subst hvs
          subst hst
          have hn := hnode st n v st₁ hinv hr
          have hrest := ihn st₁ vs' st₂ hn.1 hm
          refine ⟨hrest.1, ?_⟩
          intro hall w hw
          simp only [List.all_cons, Bool.and_eq_true] at hall
          rcases List.mem_cons.mp hw with hw | hw
          · subst hw
            exact hn.2 hall.1
          · exact hrest.2 hall.2 w hw

/-- Resolution preserves the async-cache invariant, and whenever some
factory in the explored subtree is asynchronous, from an
invariant-respecting state the result is pending. -/
theorem resolve_anyAsync (g : DAGraph String ServiceSpec) (fuel : Nat) :
    (∀ (st : RState) (k : String) (r : SyncOrAsync JSVal) (st' : RState),
      StAsync g st → resolveV1 g fuel st k = some (r, st') →
      StAsync g st' ∧ (anyAsyncFac g fuel k = true → r.isNow = false)) ∧
    (∀ (st : RState) (ns : List String) (vs : List (SyncOrAsync JSVal))
       (st' : RState),
      StAsync g st → resolveMany g fuel st ns = some (vs, st') →
      StAsync g st' ∧ (ns.any (anyAsyncFac g fuel) = true →
        ∃ v ∈ vs, v.isNow = false)) := by
  induction fuel with
  | zero =>
    constructor
    · intro st k r st' _ hres
      simp [resolveV1] at hres
    · intro st ns vs st' hinv hres
      cases ns with
      | nil =>
        simp only [resolveMany, Option.some.injEq, Prod.mk.injEq] at hres
        obtain ⟨hvs, hst⟩ := hres
        subst hvs
        subst hst
        exact ⟨hinv, by intro hany; simp [anyAsyncFac] at hany⟩
      | cons n ns => simp [resolveMany, resolveV1] at hres
  | succ fuel ih =>
    have hnode : ∀ (st : RState) (k : String) (r : SyncOrAsync JSVal)
        (st' : RState), StAsync g st → resolveV1 g (fuel + 1) st k = some (r, st') →
        StAsync g st' ∧ (anyAsyncFac g (fuel + 1) k = true → r.isNow = false) := by
      intro st k r st' hinv hres
      rw [resolveV1] at hres
      cases hv : g.getVertex k with
      | none => rw [hv] at hres; simp at hres
      | some vtx =>
        rw [hv] at hres
        dsimp only at hres
        cases hm : resolveMany g fuel st vtx.neighbours with
        | none => rw [hm] at hres; simp at hres
        | some p =>
          obtain ⟨deps, st₁⟩ := p
          rw [hm] at hres
          dsimp only at hres
          simp only [Option.some.injEq, Prod.mk.injEq] at hres
          obtain ⟨hr, hst⟩ := hres
          subst hr
          subst hst
          have hlist := ih.2 st vtx.neighbours deps st₁ hinv hm
          have hinstAsync : vtx.value.facAsync = true →
              (svcInstantiate vtx.value (deps.map SyncOrAsync.val)
                (getSlot st₁ k)).1.isNow = false ∧
              ((svcInstantiate vtx.value (deps.map SyncOrAsync.val)
                (getSlot st₁ k)).2.cache.isNow = false ∨
               (svcInstantiate vtx.value (deps.map SyncOrAsync.val)
                (getSlot st₁ k)).2.cache = (getSlot st₁ k).cache) := by
            intro hfac
            cases hspec : vtx.value with
            | transientS f =>
              have hf : f.isAsync = true := by
                rw [hspec] at hfac
                simpa [ServiceSpec.facAsync] using hfac
              constructor
              · simp [svcInstantiate, facRun_async f _ _ hf, SyncOrAsync.isNow]
              · right
                simp [svcInstantiate]
            | singletonS f inv rep =>
              have hf : f.isAsync = true := by
                rw [hspec] at hfac
                simpa [ServiceSpec.facAsync] using hfac
              have hc := hlist.1 k vtx hv hfac
              have hlem := singletonInstantiate_async f inv rep
                (deps.map SyncOrAsync.val) (getSlot st₁ k) hf hc
              exact ⟨by simpa [svcInstantiate] using hlem.1,
                Or.inl (by simpa [svcInstantiate] using hlem.2)⟩
          constructor
          · intro k' vtx' hv' hfac'
            by_cases hkk : k' = k
            · subst hkk
              rw [hv'] at hv
              have hvv : vtx = vtx' := (Option.some.inj hv).symm
              subst hvv
              rw [getSlot_setSlot_self]
              rcases (hinstAsync hfac').2 with hcf | hsame
              · right
                exact hcf
              · rw [hsame]
                exact hlist.1 k' vtx hv' hfac'
            · rw [getSlot_setSlot_other _ _ _ _ hkk]
              exact hlist.1 k' vtx' hv' hfac'
          · intro hany
            simp only [anyAsyncFac, hv, Bool.or_eq_true] at hany
            rcases hany with hfac | hns
            · have h1 := (hinstAsync hfac).1
              cases hd : deps.any (fun d => d.isNow = false) with
              | true => simp [SyncOrAsync.isNow]
              | false => simpa [hd] using h1
            · obtain ⟨d, hd, hdn⟩ := hlist.2 hns
              have hanyd : (deps.any fun d => d.isNow = false) = true :=
                List.any_eq_true.mpr ⟨d, hd, by simp [hdn]⟩
              rw [hanyd]
              rfl
    refine ⟨hnode, ?_⟩
    intro st ns
    induction ns generalizing st with
    | nil =>
      intro vs st' hinv hres
      simp only [resolveMany, Option.some.injEq, Prod.mk.injEq] at hres
      obtain ⟨hvs, hst⟩ := hres
      subst hvs
      subst hst
      exact ⟨hinv, by intro hany; simp at hany⟩
    | cons n ns ihn =>
      intro vs st' hinv hres
      rw [resolveMany] at hres
      cases hr : resolveV1 g (fuel + 1) st n with
      | none => rw [hr] at hres; simp at hres
      | some p =>
        obtain ⟨v, st₁⟩ := p
        rw [hr] at hres
        dsimp only at hres
        cases hm : resolveMany g (fuel + 1) st₁ ns with
        | none => rw [hm] at hres; simp at hres
        | some q =>
          obtain ⟨vs', st₂⟩ := q
          rw [hm] at hres
          simp only [Option.some.injEq, Prod.mk.injEq] at hres
          obtain ⟨hvs, hst⟩ := hres
          subst hvs
          subst hst
          have hn := hnode st n v st₁ hinv hr
          have hrest := ihn st₁ vs' st₂ hn.1 hm
          refine ⟨hrest.1, ?_⟩
          intro hany
          simp only [List.any_cons, Bool.or_eq_true] at hany
          rcases hany with hany | hany
          · exact ⟨v, List.mem_cons_self _ _, hn.2 hany⟩
          · obtain ⟨w, hw, hwn⟩ := hrest.2 hany
            exact ⟨w, List.mem_cons_of_mem _ hw, hwn⟩

/-- **C2.** Sync/async transparency of v1 `Container.get`: starting from a
fresh container, if resolving `k` succeeds with result `r`, then (i) when
every factory and repair callback in the dependency subtree of `k` is
synchronous, `r` is a bare immediate value (a `SyncPromise`, never a
pending promise); (ii) when any factory in the subtree is asynchronous,
`r` is pending; and (iii) running the syncified registry (every factory
forced synchronous, same produced values) succeeds and immediately yields
the same settled value `r.val` — the pending value resolves to the same
logical result as the fully synchronous computation would. -/
theorem c2_sync_async_transparency
    (g : DAGraph String ServiceSpec) (fuel : Nat) (k : String)
    (r : SyncOrAsync JSVal) (st' : RState)
    (hres : resolveV1 g fuel initRState k = some (r, st')) :
    (allSyncReg g fuel k = true → r.isNow = true) ∧
    (anyAsyncFac g fuel k = true → r.isNow = false) ∧
    resolveV1 g.syncify fuel initRState k = some (.now r.val, syncSt st') := by
  have hsync : StSync g initRState := by
    intro k' vtx _ _
    simp [getSlot, lookupA, initRState, initSlot, SyncOrAsync.isNow]
  have hasync : StAsync g initRState := by
    intro k' vtx _ _
    left
    simp [getSlot, lookupA, initRState, initSlot]
  refine ⟨fun hall => ((resolve_allSync g fuel).1 _ _ _ _ hsync hres).2 hall,
          fun hany => ((resolve_anyAsync g fuel).1 _ _ _ _ hasync hres).2 hany, ?_⟩
  have h := (resolve_syncify g fuel).1 initRState k
  have hinit : syncSt initRState = initRState := rfl
  rw [hinit] at h
  rw [h, hres]
  rfl

theorem c2_sync_async_transparency_witness :
    (allSyncReg gEx 2 "top" = true →
      (SyncOrAsync.later (JSVal.vnum 2)).isNow = true) ∧
    (anyAsyncFac gEx 2 "top" = true →
      (SyncOrAsync.later (JSVal.vnum 2)).isNow = false) ∧
    resolveV1 gEx.syncify 2 initRState "top" =
      some (.now (SyncOrAsync.later (JSVal.vnum 2)).val,
        syncSt [("dep", ⟨.now JSVal.vundef, 1⟩), ("top", ⟨.now JSVal.vundef, 1⟩)]) :=
  c2_sync_async_transparency gEx 2 "top" (.later (.vnum 2))
    [("dep", ⟨.now JSVal.vundef, 1⟩), ("top", ⟨.now JSVal.vundef, 1⟩)]
    (by simp [resolveV1, resolveMany, gEx, DAGraph.getVertex, getSlot, setSlot,
      lookupA, setAssoc, initSlot, initRState, svcInstantiate, FactorySpec.run,
      SyncOrAsync.isNow, SyncOrAsync.val])
